import Mathlib

/-!
# Cubecraft save files: the binary format of `source/file.c`

A shallow embedding of the save-file codec of `source/file.c`
(`serialize_*`, `deserialize_*`, `calc_save_size`, `read_save`, `write_save`)
together with theorems about the layout it produces and consumes, and of the
item stacks of `source/inventory.c` (`inventory_init`, `inventory_add_block`).

Conventions of the embedding:

* a `byte *` is an offset (a natural number) from the start of the buffer, and
  the memory the buffer lives in is a function from offsets to cells; reading or
  writing at an offset `≥ bufSize` is not an error in C and is not one here, it
  simply touches the memory behind the buffer;
* `SAVENAME_MAX` and `SEED_MAX` come from a header that is not part of the
  sources at hand and are parameters of every definition that uses them;
* pointer differences and `size_t` values are natural numbers; the writer works
  on a `SaveFile` that is held in memory, where they stay far below `2 ^ 32`; the
  reader works on counts taken from the buffer, and a run in which an offset
  reaches `2 ^ 32` (where the 32-bit target wraps) or in which an unchecked
  `malloc` fails ends as `Status.undetermined`;
* the integer *values* that are serialized are reduced to their width where the
  C code does so.
-/

namespace Cubecraft

/-! ## Memory -/

/-- Memory as seen from the start of the buffer: offset to cell. -/
abbrev Mem := Nat → Nat

/-- Reading one `unsigned char`: `(*src)[i]`. -/
def load (m : Mem) (a : Nat) : Nat := m a % 256

/-- Writing one `unsigned char`: `(*dst)[i] = v` (the value is converted to a byte). -/
def store (m : Mem) (a v : Nat) : Mem := fun b => if b = a then v % 256 else m b

/-- A write cursor `byte **dst`: the memory and the current offset. -/
structure Cursor where
  mem : Mem
  pos : Nat

/-! ## Data model -/

/-- Modelled from the spec: `struct BlockModification` (declared in a header that
is not among the sources): four `uint8_t` fields. -/
structure BlockModification where
  x : Nat
  y : Nat
  z : Nat
  type : Nat
deriving DecidableEq, Repr

/-- Modelled from the spec: `struct ChunkModification` (declared in a header that
is not among the sources): `int32_t x, z`, and the array `modifiedBlocks` whose
length is the field `modifiedBlocksCount`, a `uint32_t` in the file. -/
structure ChunkModification where
  x : Int
  z : Int
  modifiedBlocks : List BlockModification
deriving DecidableEq, Repr

/-- The field `modifiedBlocksCount` of a chunk modification. -/
def ChunkModification.modifiedBlocksCount (c : ChunkModification) : Nat :=
  c.modifiedBlocks.length

/-- Modelled from the spec: `struct SaveFile` (declared in a header that is not
among the sources). `name` and `seed` are the contents of the two `char` arrays
(a C string ends at its first zero byte, or at the end of the list); the array
`modifiedChunks` has `modifiedChunksCount` entries, a `uint32_t` in the file. -/
structure SaveFile where
  name : List Nat
  seed : List Nat
  spawnX : Int
  spawnY : Int
  spawnZ : Int
  modifiedChunks : List ChunkModification
deriving DecidableEq, Repr

/-- The field `modifiedChunksCount` of a save file. -/
def SaveFile.modifiedChunksCount (s : SaveFile) : Nat := s.modifiedChunks.length

/-! ## Constants -/

/-- `CHUNK_MOD_SIZE`, that is `4 * sizeof(uint32_t)`. -/
def CHUNK_MOD_SIZE : Nat := 4 * 4

/-- The array `fileMagic[] = "CUBECRAFTvALPHA"`, terminator included. -/
def fileMagic : List Nat :=
  [67, 85, 66, 69, 67, 82, 65, 70, 84, 118, 65, 76, 80, 72, 65, 0]

/-! ## C strings -/

/-- The bytes of a C string before its terminator. -/
def cstr (s : List Nat) : List Nat := s.takeWhile (fun b => b ≠ 0)

/-- `strlen`. -/
def strlen (s : List Nat) : Nat := (cstr s).length

/-- `strcpy(dst, src)` into a local array `dst`: the text of `src` and its
terminator overwrite the start of `dst`. When they do not fit, the copy runs
past the end of the array; that has no defined outcome, and the result is
`none`. -/
def strcpy (dst src : List Nat) : Option (List Nat) :=
  if strlen src < dst.length then
    some (cstr src ++ 0 :: dst.drop (strlen src + 1))
  else none

/-- `strcmp` on two terminated arrays: zero exactly when the strings agree. -/
def strcmp : List Nat → List Nat → Int
  | a :: as, b :: bs =>
    if a ≠ b then (a : Int) - (b : Int) else if a = 0 then 0 else strcmp as bs
  | _, _ => 0

/-! ## Integer and string codec -/

/-- The function `serialize_int32_t` generated by `X(int32_t)`. -/
def serialize_int32_t (dst : Cursor) (x : Int) : Cursor :=
  { mem := (List.range 4).foldl
      (fun m i => store m (dst.pos + i) ((x >>> (8 * (4 - i - 1))) % 256).toNat) dst.mem
    pos := dst.pos + 4 }

/-- The function `serialize_uint32_t` generated by `X(uint32_t)`. -/
def serialize_uint32_t (dst : Cursor) (x : Nat) : Cursor :=
  { mem := (List.range 4).foldl
      (fun m i => store m (dst.pos + i) ((x >>> (8 * (4 - i - 1))) &&& 255)) dst.mem
    pos := dst.pos + 4 }

/-- The function `serialize_uint8_t` generated by `X(uint8_t)`. -/
def serialize_uint8_t (dst : Cursor) (x : Nat) : Cursor :=
  { mem := (List.range 1).foldl
      (fun m i => store m (dst.pos + i) ((x >>> (8 * (1 - i - 1))) &&& 255)) dst.mem
    pos := dst.pos + 1 }

/-- The value of an `int32_t` whose 32 bits are those of `n`. -/
def wrap_int32 (n : Nat) : Int :=
  if n % 2 ^ 32 < 2 ^ 31 then ((n % 2 ^ 32 : Nat) : Int) else ((n % 2 ^ 32 : Nat) : Int) - 2 ^ 32

/-- The function `deserialize_uint32_t` generated by `X(uint32_t)`: the value and
the advanced source offset. -/
def deserialize_uint32_t (m : Mem) (src : Nat) : Nat × Nat :=
  ((List.range 4).foldl
      (fun x i => (x ||| (load m (src + i) <<< (8 * (4 - i - 1)))) % 2 ^ 32) 0,
   src + 4)

/-- The function `deserialize_int32_t` generated by `X(int32_t)`: the bits are
accumulated as in the unsigned case and read as a two's-complement value. -/
def deserialize_int32_t (m : Mem) (src : Nat) : Int × Nat :=
  (wrap_int32 ((List.range 4).foldl
      (fun x i => (x ||| (load m (src + i) <<< (8 * (4 - i - 1)))) % 2 ^ 32) 0),
   src + 4)

/-- The function `deserialize_uint8_t` generated by `X(uint8_t)`. -/
def deserialize_uint8_t (m : Mem) (src : Nat) : Nat × Nat :=
  ((List.range 1).foldl
      (fun x i => (x ||| (load m (src + i) <<< (8 * (1 - i - 1)))) % 2 ^ 8) 0,
   src + 1)

/-- `serialize_string`: `length` bytes of `string`, one `*((*dst)++) = string[i]`
per iteration. -/
def serialize_string (dst : Cursor) (string : List Nat) (length : Nat) : Cursor :=
  (List.range length).foldl
    (fun c i => { mem := store c.mem c.pos (string.getD i 0), pos := c.pos + 1 }) dst

/-- `deserialize_string`: the first `length` entries of `dst` are replaced by the
bytes at `src`, `src + 1`, ...; returns the array and the advanced offset. -/
def deserialize_string (m : Mem) (src : Nat) (dst : List Nat) (length : Nat) :
    List Nat × Nat :=
  ((List.range length).map (fun i => load m (src + i)) ++ dst.drop length, src + length)

/-! ## Size, writer, reader -/

/-- `calc_save_size`. -/
def calc_save_size (SAVENAME_MAX SEED_MAX : Nat) (save : SaveFile) : Nat :=
  let size := 0
  let size := size + (fileMagic.length - 1)
  let size := size + SAVENAME_MAX
  let size := size + SEED_MAX
  let size := size + 3 * 4
  let size := size + 4
  save.modifiedChunks.foldl
    (fun size c => size + 4 + 4 + 4 + 4 + c.modifiedBlocksCount * 4 * 1) size

/-- How a call of `read_save` or `write_save` ends. `undetermined` stands for the
runs of `read_save` whose outcome the sources at hand do not fix: an offset that
leaves the 32-bit range of `size_t` and of pointers on the target, or a write
through the result of a `malloc` that failed. -/
inductive Status where
  | completed
  | magicMismatch
  | assertFailed
  | undetermined
deriving DecidableEq, Repr

/-- The inner loop of `write_save`: the block records of one chunk, through the
cursor `blockData`. -/
def write_blocks (blockData : Cursor) : List BlockModification → Cursor
  | [] => blockData
  | b :: bs =>
    write_blocks
      (serialize_uint8_t (serialize_uint8_t (serialize_uint8_t
        (serialize_uint8_t blockData b.x) b.y) b.z) b.type) bs

/-- The two cursors of the chunk loops, over one memory. -/
structure SaveCursor where
  mem : Mem
  ptr : Nat
  blockData : Nat

/-- The outer loop of `write_save`. -/
def write_chunks (s : SaveCursor) : List ChunkModification → SaveCursor
  | [] => s
  | c :: cs =>
    let p := serialize_uint32_t
      (serialize_int32_t (serialize_int32_t { mem := s.mem, pos := s.ptr } c.x) c.z)
      c.modifiedBlocksCount
    let b := write_blocks { mem := p.mem, pos := s.blockData } c.modifiedBlocks
    write_chunks { mem := b.mem, ptr := p.pos, blockData := b.pos } cs

/-- What `write_save` leaves behind: the memory, the final offset of the cursor
`blockData`, and whether the closing `assert` held. -/
structure WriteResult where
  mem : Mem
  blockData : Nat
  status : Status

/-- `write_save`. The result is `none` when one of the two `strcpy` calls
overruns its local array. -/
def write_save (SAVENAME_MAX SEED_MAX : Nat) (save : SaveFile) (buffer : Mem)
    (bufSize : Nat) : Option WriteResult :=
  let ptr : Cursor := { mem := buffer, pos := 0 }
  let ptr := serialize_string ptr fileMagic (strlen fileMagic)
  (strcpy (List.replicate SAVENAME_MAX 0) save.name).bind fun nameBuffer =>
  let ptr := serialize_string ptr nameBuffer SAVENAME_MAX
  (strcpy (List.replicate SEED_MAX 0) save.seed).bind fun seedBuffer =>
  let ptr := serialize_string ptr seedBuffer SEED_MAX
  let ptr := serialize_int32_t ptr save.spawnX
  let ptr := serialize_int32_t ptr save.spawnY
  let ptr := serialize_int32_t ptr save.spawnZ
  let ptr := serialize_uint32_t ptr save.modifiedChunksCount
  let blockData := ptr.pos + save.modifiedChunksCount * CHUNK_MOD_SIZE
  let s := write_chunks { mem := ptr.mem, ptr := ptr.pos, blockData := blockData }
    save.modifiedChunks
  some { mem := s.mem, blockData := s.blockData,
         status := if bufSize ≥ s.blockData then Status.completed else Status.assertFailed }

/-- What the unchecked calls of `malloc` in `read_save` answer: whether a request
for an array of that many entries yields a block that holds them (`false`: a
null pointer, or a byte count that wrapped in `size_t`). -/
structure Heap where
  chunkArray : Nat → Bool
  blockArray : Nat → Bool

/-- Every array that `read_save` writes to was handed out by `malloc`; an array
of no entries is never written to. -/
def HeapServes (heap : Heap) (count : Nat) (chunks : List ChunkModification) : Prop :=
  (count = 0 ∨ heap.chunkArray count = true)
    ∧ ∀ c ∈ chunks, c.modifiedBlocksCount = 0 ∨ heap.blockArray c.modifiedBlocksCount = true

instance (heap : Heap) (count : Nat) (chunks : List ChunkModification) :
    Decidable (HeapServes heap count chunks) := by
  unfold HeapServes; infer_instance

/-- How `read_save` ends after the signature matched. `start` is the offset
`ptr + count * CHUNK_MOD_SIZE` and `blockData` the offset of that cursor after
the loops. When an offset reaches `2 ^ 32` the `size_t` and pointer arithmetic of
the 32-bit target wraps, and when an allocation failed the loops write through
its result: the outcome is then `undetermined`. Otherwise every count is below
`2 ^ 30`, so that the `int` loop counters reach it whatever integer type the
count fields have, and the outcome is that of
`assert(bufSize >= blockData - buffer)`. -/
def finalStatus (heap : Heap) (start count : Nat) (chunks : List ChunkModification)
    (blockData bufSize : Nat) : Status :=
  if 2 ^ 32 ≤ start then Status.undetermined
  else if 2 ^ 32 ≤ blockData ∨ ¬ HeapServes heap count chunks then Status.undetermined
  else if bufSize ≥ blockData then Status.completed else Status.assertFailed

/-- The inner loop of `read_save`: `count` block records from `blockData`;
returns the records and the advanced offset. -/
def read_blocks (m : Mem) : Nat → Nat → List BlockModification × Nat
  | 0, blockData => ([], blockData)
  | count + 1, blockData =>
    let x := deserialize_uint8_t m blockData
    let y := deserialize_uint8_t m x.2
    let z := deserialize_uint8_t m y.2
    let t := deserialize_uint8_t m z.2
    let rest := read_blocks m count t.2
    ({ x := x.1, y := y.1, z := z.1, type := t.1 } :: rest.1, rest.2)

/-- The outer loop of `read_save`: `count` chunk headers from `ptr`, their blocks
from `blockData`; returns the chunks and the two advanced offsets. -/
def read_chunks (m : Mem) : Nat → Nat → Nat → List ChunkModification × Nat × Nat
  | 0, ptr, blockData => ([], ptr, blockData)
  | count + 1, ptr, blockData =>
    let x := deserialize_int32_t m ptr
    let z := deserialize_int32_t m x.2
    let k := deserialize_uint32_t m z.2
    let blocks := read_blocks m k.1 blockData
    let rest := read_chunks m count k.2 blocks.2
    ({ x := x.1, z := z.1, modifiedBlocks := blocks.1 } :: rest.1, rest.2)

/-- What `read_save` leaves behind: how it ended, the destination `SaveFile`, and
the final offset of the cursor `blockData` (0 when it was never set). -/
structure ReadResult where
  status : Status
  save : SaveFile
  blockData : Nat

/-- `read_save`, on the destination `save` as it is before the call; `heap` says
what its calls of `malloc` answer. The field `save` of the result holds what the
loops assign when they run to their end. -/
def read_save (heap : Heap) (SAVENAME_MAX SEED_MAX : Nat) (save : SaveFile) (buffer : Mem)
    (bufSize : Nat) : ReadResult :=
  let magicSize := fileMagic.length
  let magic := deserialize_string buffer 0 [] (magicSize - 1)
  let ptr := magic.2
  let magic := magic.1 ++ [0]
  if strcmp magic fileMagic ≠ 0 then
    { status := Status.magicMismatch, save := save, blockData := 0 }
  else
    let name := deserialize_string buffer ptr save.name SAVENAME_MAX
    let seed := deserialize_string buffer name.2 save.seed SEED_MAX
    let spawnX := deserialize_int32_t buffer seed.2
    let spawnY := deserialize_int32_t buffer spawnX.2
    let spawnZ := deserialize_int32_t buffer spawnY.2
    let count := deserialize_uint32_t buffer spawnZ.2
    let blockData := count.2 + count.1 * CHUNK_MOD_SIZE
    let chunks := read_chunks buffer count.1 count.2 blockData
    { status := finalStatus heap blockData count.1 chunks.1 chunks.2.2 bufSize,
      save := { name := name.1, seed := seed.1, spawnX := spawnX.1, spawnY := spawnY.1,
                spawnZ := spawnZ.1, modifiedChunks := chunks.1 },
      blockData := chunks.2.2 }

/-! ## The two-chunk example of the specification -/

/-- Chunk `(0,0)` with the block `(1,2,3,type 5)` and chunk `(-1,4)` without blocks. -/
def exampleSave : SaveFile :=
  { name := [119, 49], seed := [55], spawnX := 8, spawnY := 64, spawnZ := -8,
    modifiedChunks :=
      [ { x := 0, z := 0, modifiedBlocks := [{ x := 1, y := 2, z := 3, type := 5 }] },
        { x := -1, z := 4, modifiedBlocks := [] } ] }

/-! ## Specification-level views of memory -/

/-- The memory after the bytes `bs` have been written from offset `p` on. -/
def poke (m : Mem) : Nat → List Nat → Mem
  | _, [] => m
  | p, b :: bs => poke (store m p b) (p + 1) bs

/-- The `n` bytes found from offset `p` on. -/
def peek (m : Mem) : Nat → Nat → List Nat
  | _, 0 => []
  | p, n + 1 => load m p :: peek m (p + 1) n

/-- Big-endian bytes of an unsigned 32-bit value. -/
def be32 (x : Nat) : List Nat :=
  [x / 2 ^ 24 % 256, x / 2 ^ 16 % 256, x / 2 ^ 8 % 256, x % 256]

/-- Big-endian bytes of the two's-complement representation of a signed value. -/
def be32i (x : Int) : List Nat :=
  [(x / 2 ^ 24 % 256).toNat, (x / 2 ^ 16 % 256).toNat, (x / 2 ^ 8 % 256).toNat,
   (x % 256).toNat]

/-- The range of `int32_t`. -/
def IsInt32 (x : Int) : Prop := -2 ^ 31 ≤ x ∧ x < 2 ^ 31

instance (x : Int) : Decidable (IsInt32 x) := by unfold IsInt32; infer_instance

/-- The unsigned value of four bytes, most significant first. -/
def fromBe32 (m : Mem) (p : Nat) : Nat :=
  load m p * 2 ^ 24 + load m (p + 1) * 2 ^ 16 + load m (p + 2) * 2 ^ 8 + load m (p + 3)

/-! ## The layout, as lists of bytes -/

/-- The end of the fixed header: signature, name, seed, spawn, chunk count. -/
def headerSize (SAVENAME_MAX SEED_MAX : Nat) : Nat :=
  (fileMagic.length - 1) + SAVENAME_MAX + SEED_MAX + 16

/-- A text field: the text of `s` followed by zero bytes, `n` bytes when the
text is not longer than `n`. -/
def padField (n : Nat) (s : List Nat) : List Nat :=
  cstr s ++ List.replicate (n - strlen s) 0

/-- The values handed to `serialize_uint8_t` for one block record. -/
def blockBytes (b : BlockModification) : List Nat := [b.x, b.y, b.z, b.type]

/-- The block records of one chunk, in order. -/
def blocksBytes : List BlockModification → List Nat
  | [] => []
  | b :: bs => blockBytes b ++ blocksBytes bs

/-- The twelve header bytes of one chunk. -/
def chunkHeaderBytes (c : ChunkModification) : List Nat :=
  be32i c.x ++ be32i c.z ++ be32 c.modifiedBlocksCount

/-- The header bytes of all chunks, in order. -/
def headersBytes : List ChunkModification → List Nat
  | [] => []
  | c :: cs => chunkHeaderBytes c ++ headersBytes cs

/-- The block records of all chunks, in chunk order. -/
def allBlocksBytes : List ChunkModification → List Nat
  | [] => []
  | c :: cs => blocksBytes c.modifiedBlocks ++ allBlocksBytes cs

/-- The number of block records of a list of chunks. -/
def totalBlocks : List ChunkModification → Nat
  | [] => 0
  | c :: cs => c.modifiedBlocksCount + totalBlocks cs

/-- The bytes of the fixed header. -/
def fixedHeaderBytes (SAVENAME_MAX SEED_MAX : Nat) (save : SaveFile) : List Nat :=
  fileMagic.take (fileMagic.length - 1) ++ padField SAVENAME_MAX save.name
    ++ padField SEED_MAX save.seed
    ++ be32i save.spawnX ++ be32i save.spawnY ++ be32i save.spawnZ
    ++ be32 save.modifiedChunksCount

/-- The memory `write_save` leaves, when both texts fit their local arrays. -/
def writtenMem (SAVENAME_MAX SEED_MAX : Nat) (save : SaveFile) (buffer : Mem) : Mem :=
  poke (poke buffer 0 (fixedHeaderBytes SAVENAME_MAX SEED_MAX save
      ++ headersBytes save.modifiedChunks))
    (headerSize SAVENAME_MAX SEED_MAX + 16 * save.modifiedChunksCount)
    (allBlocksBytes save.modifiedChunks)

/-! ## Values that fit their C types -/

/-- Every entry is a byte. -/
def AllBytes (l : List Nat) : Prop := ∀ b ∈ l, b < 256

instance (l : List Nat) : Decidable (AllBytes l) := by unfold AllBytes; infer_instance

/-- The four fields of a block record are `uint8_t` values. -/
def BlockModification.WellTyped (b : BlockModification) : Prop :=
  b.x < 256 ∧ b.y < 256 ∧ b.z < 256 ∧ b.type < 256

instance (b : BlockModification) : Decidable b.WellTyped := by
  unfold BlockModification.WellTyped; infer_instance

/-- The coordinates are `int32_t` values, the count is a `uint32_t` value, and
every block record is well typed. -/
def ChunkModification.WellTyped (c : ChunkModification) : Prop :=
  IsInt32 c.x ∧ IsInt32 c.z ∧ c.modifiedBlocksCount < 2 ^ 32
    ∧ ∀ b ∈ c.modifiedBlocks, b.WellTyped

instance (c : ChunkModification) : Decidable c.WellTyped := by
  unfold ChunkModification.WellTyped; infer_instance

/-- The fields of a save file hold values of their C types: `char` texts,
`int32_t` spawn coordinates, a `uint32_t` chunk count, well-typed chunks. -/
def SaveFile.WellTyped (s : SaveFile) : Prop :=
  AllBytes s.name ∧ AllBytes s.seed ∧ IsInt32 s.spawnX ∧ IsInt32 s.spawnY ∧ IsInt32 s.spawnZ
    ∧ s.modifiedChunksCount < 2 ^ 32 ∧ ∀ c ∈ s.modifiedChunks, c.WellTyped

instance (s : SaveFile) : Decidable s.WellTyped := by
  unfold SaveFile.WellTyped; infer_instance

/-! ## The signature test -/

/-- The fifteen signature bytes, without the terminator. -/
def magicBytes : List Nat := fileMagic.take (fileMagic.length - 1)

/-- The result of `read_save` once the signature has matched, in terms of the
bytes of the buffer. -/
def parsed (heap : Heap) (SAVENAME_MAX SEED_MAX : Nat) (save : SaveFile) (buffer : Mem)
    (bufSize : Nat) : ReadResult :=
  let chunks := read_chunks buffer (fromBe32 buffer (15 + SAVENAME_MAX + SEED_MAX + 12))
    (headerSize SAVENAME_MAX SEED_MAX)
    (headerSize SAVENAME_MAX SEED_MAX
      + 16 * fromBe32 buffer (15 + SAVENAME_MAX + SEED_MAX + 12))
  { status := finalStatus heap
      (headerSize SAVENAME_MAX SEED_MAX
        + 16 * fromBe32 buffer (15 + SAVENAME_MAX + SEED_MAX + 12))
      (fromBe32 buffer (15 + SAVENAME_MAX + SEED_MAX + 12)) chunks.1 chunks.2.2 bufSize
    save :=
      { name := peek buffer 15 SAVENAME_MAX ++ save.name.drop SAVENAME_MAX
        seed := peek buffer (15 + SAVENAME_MAX) SEED_MAX ++ save.seed.drop SEED_MAX
        spawnX := wrap_int32 (fromBe32 buffer (15 + SAVENAME_MAX + SEED_MAX))
        spawnY := wrap_int32 (fromBe32 buffer (15 + SAVENAME_MAX + SEED_MAX + 4))
        spawnZ := wrap_int32 (fromBe32 buffer (15 + SAVENAME_MAX + SEED_MAX + 8))
        modifiedChunks := chunks.1 }
    blockData := chunks.2.2 }

/-! ## Concrete inputs -/

/-- A buffer whose first bytes are `bytes`, with zero bytes behind them. -/
def memOfList (bytes : List Nat) : Mem := fun a => bytes.getD a 0

/-- A destination `SaveFile` with empty texts and no chunks. -/
def emptySave : SaveFile :=
  { name := [], seed := [], spawnX := 0, spawnY := 0, spawnZ := 0, modifiedChunks := [] }

/-- The 75 bytes of the example save for `SAVENAME_MAX = SEED_MAX = 4`, the eight
unwritten bytes being `170`. -/
def exampleFile : List Nat :=
  [67, 85, 66, 69, 67, 82, 65, 70, 84, 118, 65, 76, 80, 72, 65,
   119, 49, 0, 0, 55, 0, 0, 0,
   0, 0, 0, 8, 0, 0, 0, 64, 255, 255, 255, 248, 0, 0, 0, 2,
   0, 0, 0, 0, 0, 0, 0, 0, 0, 0, 0, 1,
   255, 255, 255, 255, 0, 0, 0, 4, 0, 0, 0, 0,
   170, 170, 170, 170, 170, 170, 170, 170,
   1, 2, 3, 5]

/-- A heap that serves every request for fewer than 1000 entries. -/
def exampleHeap : Heap :=
  { chunkArray := fun n => decide (n < 1000), blockArray := fun n => decide (n < 1000) }

/-- The fixed header of a file with four-byte text fields that declares
`0xFFFFFFFF` chunks, 39 bytes in all. -/
def hugeCountFile : List Nat :=
  [67, 85, 66, 69, 67, 82, 65, 70, 84, 118, 65, 76, 80, 72, 65,
   119, 49, 0, 0, 55, 0, 0, 0,
   0, 0, 0, 8, 0, 0, 0, 64, 255, 255, 255, 248, 255, 255, 255, 255]

/-! ## What a buffer declares -/

/-- The chunk count a buffer declares: the `uint32_t` that ends the fixed header. -/
def declaredChunks (SAVENAME_MAX SEED_MAX : Nat) (buffer : Mem) : Nat :=
  (deserialize_uint32_t buffer (headerSize SAVENAME_MAX SEED_MAX - 4)).1

/-- The block counts a buffer declares, as `read_save` finds them in the chunk
headers. -/
def declaredBlockCounts (SAVENAME_MAX SEED_MAX : Nat) (buffer : Mem) : List Nat :=
  (List.range (declaredChunks SAVENAME_MAX SEED_MAX buffer)).map
    (fun i => (deserialize_uint32_t buffer (headerSize SAVENAME_MAX SEED_MAX + 12 * i + 8)).1)

/-! ## The inventory of `source/inventory.c` -/

/-- The `struct ItemSlot` of `inventory.c` (declared in a header that is not among
the sources), with the two integer fields the code uses. -/
structure ItemSlot where
  type : Int
  count : Int
deriving DecidableEq, Repr

/-- The block identifiers `inventory_init` uses; they come from a header that is
not among the sources and are parameters. -/
structure BlockIds where
  BLOCK_STONE : Int
  BLOCK_DIRT : Int
  BLOCK_GRASS : Int
  BLOCK_WOOD : Int
  BLOCK_SAND : Int

/-- The two globals `inventory[NUM_ITEM_SLOTS]` and `inventorySelection`. -/
structure InventoryState where
  inventory : List ItemSlot
  inventorySelection : Int
deriving DecidableEq, Repr

/-- The first loop of `inventory_add_block`, from the slot at the head of the
list on: the first slot of this type with `count < 99` gets `count++`; `none`
when the loop ends without a `return`. -/
def add_to_existing (type : Int) : List ItemSlot → Option (List ItemSlot)
  | [] => none
  | t :: rest =>
    if t.type = type ∧ t.count < 99 then some ({ t with count := t.count + 1 } :: rest)
    else (add_to_existing type rest).map (fun r => t :: r)

/-- The second loop of `inventory_add_block`: the first slot with `count == 0`
gets the type and `count = 1`; `none` when the loop ends without a `return`. -/
def add_to_empty (type : Int) : List ItemSlot → Option (List ItemSlot)
  | [] => none
  | t :: rest =>
    if t.count = 0 then some ({ type := type, count := 1 } :: rest)
    else (add_to_empty type rest).map (fun r => t :: r)

/-- `inventory_add_block`. -/
def inventory_add_block (s : InventoryState) (type : Int) : InventoryState :=
  match add_to_existing type s.inventory with
  | some inv => { s with inventory := inv }
  | none =>
    match add_to_empty type s.inventory with
    | some inv => { s with inventory := inv }
    | none => s

/-- `inventory_init`: `memset` to zero, then the five stacks of 99 in the slots 0
to 4, then the selection. The result is `none` when the array has fewer than
five slots, since the assignments would fall outside it. -/
def inventory_init (NUM_ITEM_SLOTS : Nat) (ids : BlockIds) : Option InventoryState :=
  if 5 ≤ NUM_ITEM_SLOTS then
    let inventory := List.replicate NUM_ITEM_SLOTS ({ type := 0, count := 0 } : ItemSlot)
    let inventory := inventory.set 0 { type := ids.BLOCK_STONE, count := 99 }
    let inventory := inventory.set 1 { type := ids.BLOCK_DIRT, count := 99 }
    let inventory := inventory.set 2 { type := ids.BLOCK_GRASS, count := 99 }
    let inventory := inventory.set 3 { type := ids.BLOCK_WOOD, count := 99 }
    let inventory := inventory.set 4 { type := ids.BLOCK_SAND, count := 99 }
    some { inventory := inventory, inventorySelection := 0 }
  else none

/-- Every slot's count is between 0 and 99. -/
def CountsInRange (inv : List ItemSlot) : Prop := ∀ t ∈ inv, 0 ≤ t.count ∧ t.count ≤ 99

instance (inv : List ItemSlot) : Decidable (CountsInRange inv) := by
  unfold CountsInRange; infer_instance

/-- Block identifiers for the examples. -/
def exampleIds : BlockIds :=
  { BLOCK_STONE := 1, BLOCK_DIRT := 3, BLOCK_GRASS := 4, BLOCK_WOOD := 5, BLOCK_SAND := 2 }

/-- An inventory with a stack of 98 of type 3 behind a full stack of that type. -/
def exampleInventory : InventoryState :=
  { inventory := [{ type := 3, count := 99 }, { type := 3, count := 98 },
                  { type := 0, count := 0 }],
    inventorySelection := 1 }

/-- The total a buffer declares: header, sixteen bytes for every chunk, four for
every block. -/
def consumedBytes (SAVENAME_MAX SEED_MAX : Nat) (buffer : Mem) : Nat :=
  headerSize SAVENAME_MAX SEED_MAX + 16 * declaredChunks SAVENAME_MAX SEED_MAX buffer
    + 4 * (declaredBlockCounts SAVENAME_MAX SEED_MAX buffer).sum

/-- The declared total stays below `2 ^ 32` and the heap serves every array the
buffer asks for. -/
def InRange (heap : Heap) (SAVENAME_MAX SEED_MAX : Nat) (buffer : Mem) : Prop :=
  consumedBytes SAVENAME_MAX SEED_MAX buffer < 2 ^ 32
    ∧ (declaredChunks SAVENAME_MAX SEED_MAX buffer = 0
        ∨ heap.chunkArray (declaredChunks SAVENAME_MAX SEED_MAX buffer) = true)
    ∧ ∀ k ∈ declaredBlockCounts SAVENAME_MAX SEED_MAX buffer, k = 0 ∨ heap.blockArray k = true

instance (heap : Heap) (SAVENAME_MAX SEED_MAX : Nat) (buffer : Mem) :
    Decidable (InRange heap SAVENAME_MAX SEED_MAX buffer) := by
  unfold InRange; infer_instance

/-! # Lemmas -/

/-! ## Memory lemmas -/

theorem poke_apply (m : Mem) (p : Nat) (bs : List Nat) (a : Nat) :
    poke m p bs a = if p ≤ a ∧ a < p + bs.length then bs.getD (a - p) 0 % 256 else m a := by
  induction bs generalizing m p with
  | nil =>
    have h : ¬ (p ≤ a ∧ a < p + ([] : List Nat).length) := by
      simp only [List.length_nil]; omega
    rw [if_neg h, poke]
  | cons b bs ih =>
    rw [poke, ih]
    by_cases h1 : a = p
    · subst h1
      simp [store]
    · by_cases h2 : p + 1 ≤ a ∧ a < p + 1 + bs.length
      · have h3 : p ≤ a ∧ a < p + (b :: bs).length := by
          simp only [List.length_cons]; omega
        have h4 : a - p = (a - (p + 1)) + 1 := by omega
        rw [if_pos h2, if_pos h3, h4, List.getD_cons_succ]
      · have h3 : ¬ (p ≤ a ∧ a < p + (b :: bs).length) := by
          simp only [List.length_cons]; omega
        rw [if_neg h2, if_neg h3]
        simp [store, h1]

theorem poke_append (m : Mem) (p : Nat) (as bs : List Nat) :
    poke m p (as ++ bs) = poke (poke m p as) (p + as.length) bs := by
  induction as generalizing m p with
  | nil => simp [poke]
  | cons a as ih =>
    have e : p + (a :: as).length = p + 1 + as.length := by
      simp only [List.length_cons]; omega
    rw [List.cons_append, poke, poke, ih, e]

theorem poke_outside (m : Mem) (p : Nat) (bs : List Nat) (a : Nat)
    (h : a < p ∨ p + bs.length ≤ a) : poke m p bs a = m a := by
  rw [poke_apply, if_neg (by omega)]

theorem poke_comm (m : Mem) (p q : Nat) (as bs : List Nat)
    (h : p + as.length ≤ q ∨ q + bs.length ≤ p) :
    poke (poke m p as) q bs = poke (poke m q bs) p as := by
  funext a
  simp only [poke_apply]
  by_cases h1 : p ≤ a ∧ a < p + as.length
  · have h2 : ¬ (q ≤ a ∧ a < q + bs.length) := by omega
    simp [h1, h2]
  · simp [h1]

theorem peek_length (m : Mem) (p n : Nat) : (peek m p n).length = n := by
  induction n generalizing p with
  | zero => rfl
  | succ n ih => simp [peek, ih]

theorem peek_add (m : Mem) (p a b : Nat) :
    peek m p (a + b) = peek m p a ++ peek m (p + a) b := by
  induction a generalizing p with
  | zero => simp [peek]
  | succ a ih =>
    have e : a + 1 + b = (a + b) + 1 := by omega
    rw [e, peek, peek, ih, List.cons_append]
    congr 3
    omega

theorem peek_congr (m m' : Mem) (p n : Nat)
    (h : ∀ a, p ≤ a → a < p + n → m' a = m a) : peek m' p n = peek m p n := by
  induction n generalizing p with
  | zero => rfl
  | succ n ih =>
    rw [peek, peek, ih (p + 1) (fun a h1 h2 => h a (by omega) (by omega))]
    simp [load, h p (le_refl p) (by omega)]

theorem peek_poke_outside (m : Mem) (p q n : Nat) (bs : List Nat)
    (h : q + n ≤ p ∨ p + bs.length ≤ q) : peek (poke m p bs) q n = peek m q n :=
  peek_congr m _ q n (fun a h1 h2 => poke_outside m p bs a (by omega))

theorem peek_poke_same (m : Mem) (p : Nat) (bs : List Nat) :
    peek (poke m p bs) p bs.length = bs.map (fun b => b % 256) := by
  induction bs generalizing m p with
  | nil => rfl
  | cons b bs ih =>
    rw [List.length_cons, peek, poke, ih]
    have e : load (poke (store m p b) (p + 1) bs) p = b % 256 := by
      rw [load, poke_outside _ _ _ _ (Or.inl (by omega))]
      simp [store]
    rw [e, List.map_cons]

theorem peek_eq_map_range (m : Mem) (p n : Nat) :
    (List.range n).map (fun i => load m (p + i)) = peek m p n := by
  induction n generalizing p with
  | zero => rfl
  | succ n ih =>
    rw [List.range_succ_eq_map, List.map_cons, List.map_map, peek, ← ih (p + 1)]
    simp only [Nat.add_zero, List.cons.injEq, true_and]
    apply List.map_congr_left
    intro i _
    simp only [Function.comp, Nat.succ_eq_add_one]
    congr 1
    omega

/-! ## Codec lemmas -/

theorem range_four : List.range 4 = [0, 1, 2, 3] := by decide

theorem range_one : List.range 1 = [0] := by decide

theorem serialize_uint32_t_eq (c : Cursor) (x : Nat) :
    serialize_uint32_t c x = { mem := poke c.mem c.pos (be32 x), pos := c.pos + 4 } := by
  have e : ∀ k : Nat, x >>> k &&& 255 = x / 2 ^ k % 256 := by
    intro k
    rw [Nat.shiftRight_eq_div_pow]
    exact Nat.and_pow_two_sub_one_eq_mod _ 8
  simp only [serialize_uint32_t, range_four, List.foldl_cons, List.foldl_nil, be32, poke, e]
  norm_num

theorem serialize_int32_t_eq (c : Cursor) (x : Int) :
    serialize_int32_t c x = { mem := poke c.mem c.pos (be32i x), pos := c.pos + 4 } := by
  simp only [serialize_int32_t, range_four, List.foldl_cons, List.foldl_nil, be32i, poke,
    Int.shiftRight_eq_div_pow]
  norm_num

theorem serialize_uint8_t_eq (c : Cursor) (x : Nat) :
    serialize_uint8_t c x = { mem := poke c.mem c.pos [x], pos := c.pos + 1 } := by
  have e : x &&& 255 = x % 256 := Nat.and_pow_two_sub_one_eq_mod _ 8
  have e2 : store c.mem c.pos (x % 256) = store c.mem c.pos x := by
    funext a; simp [store]
  simp only [serialize_uint8_t, range_one, List.foldl_cons, List.foldl_nil, poke]
  norm_num [e, e2]

theorem serialize_string_eq (c : Cursor) (s : List Nat) (n : Nat) :
    serialize_string c s n =
      { mem := poke c.mem c.pos ((List.range n).map (fun i => s.getD i 0)), pos := c.pos + n } := by
  induction n with
  | zero => simp [serialize_string, poke]
  | succ n ih =>
    unfold serialize_string at ih ⊢
    rw [List.range_succ, List.foldl_append, ih, List.map_append, poke_append]
    simp [poke, Nat.add_assoc]

theorem or_shift (a b k : Nat) (hb : b < 256) :
    (a * 2 ^ (k + 8)) ||| (b <<< k) = a * 2 ^ (k + 8) + b * 2 ^ k := by
  have h : b * 2 ^ k < 2 ^ (k + 8) := by
    rw [pow_add, Nat.mul_comm]
    exact Nat.mul_lt_mul_of_pos_left hb (by positivity)
  rw [Nat.shiftLeft_eq, Nat.mul_comm a]
  exact (Nat.mul_add_lt_is_or h a).symm

theorem fold_be32 (b0 b1 b2 b3 : Nat) (h0 : b0 < 256) (h1 : b1 < 256) (h2 : b2 < 256)
    (h3 : b3 < 256) :
    ((((0 ||| b0 <<< 24) % 2 ^ 32 ||| b1 <<< 16) % 2 ^ 32 ||| b2 <<< 8) % 2 ^ 32
        ||| b3 <<< 0) % 2 ^ 32
      = b0 * 2 ^ 24 + b1 * 2 ^ 16 + b2 * 2 ^ 8 + b3 := by
  have s0 : (0 ||| b0 <<< 24) % 2 ^ 32 = b0 * 2 ^ 24 := by
    rw [Nat.zero_or, Nat.shiftLeft_eq]; omega
  have s1 : (b0 * 2 ^ 24 ||| b1 <<< 16) % 2 ^ 32 = b0 * 2 ^ 24 + b1 * 2 ^ 16 := by
    have := or_shift b0 b1 16 h1
    norm_num at this ⊢
    rw [this]; omega
  have s2 : (b0 * 2 ^ 24 + b1 * 2 ^ 16 ||| b2 <<< 8) % 2 ^ 32
      = b0 * 2 ^ 24 + b1 * 2 ^ 16 + b2 * 2 ^ 8 := by
    have := or_shift (b0 * 2 ^ 8 + b1) b2 8 h2
    have e : (b0 * 2 ^ 8 + b1) * 2 ^ (8 + 8) = b0 * 2 ^ 24 + b1 * 2 ^ 16 := by ring
    rw [e] at this
    rw [this]; omega
  have s3 : (b0 * 2 ^ 24 + b1 * 2 ^ 16 + b2 * 2 ^ 8 ||| b3 <<< 0) % 2 ^ 32
      = b0 * 2 ^ 24 + b1 * 2 ^ 16 + b2 * 2 ^ 8 + b3 := by
    have := or_shift (b0 * 2 ^ 16 + b1 * 2 ^ 8 + b2) b3 0 h3
    have e : (b0 * 2 ^ 16 + b1 * 2 ^ 8 + b2) * 2 ^ (0 + 8)
        = b0 * 2 ^ 24 + b1 * 2 ^ 16 + b2 * 2 ^ 8 := by ring
    rw [e] at this
    rw [this]; omega
  rw [s0, s1, s2, s3]

theorem load_lt (m : Mem) (a : Nat) : load m a < 256 := Nat.mod_lt _ (by decide)

theorem deserialize_uint32_t_eq (m : Mem) (p : Nat) :
    deserialize_uint32_t m p = (fromBe32 m p, p + 4) := by
  simp only [deserialize_uint32_t, range_four, List.foldl_cons, List.foldl_nil]
  have := fold_be32 (load m (p + 0)) (load m (p + 1)) (load m (p + 2)) (load m (p + 3))
    (load_lt _ _) (load_lt _ _) (load_lt _ _) (load_lt _ _)
  norm_num at this ⊢
  rw [this]; rfl

theorem deserialize_int32_t_eq (m : Mem) (p : Nat) :
    deserialize_int32_t m p = (wrap_int32 (fromBe32 m p), p + 4) := by
  have h := deserialize_uint32_t_eq m p
  simp only [deserialize_uint32_t, Prod.mk.injEq] at h
  simp only [deserialize_int32_t, h.1]

theorem deserialize_uint8_t_eq (m : Mem) (p : Nat) :
    deserialize_uint8_t m p = (load m p, p + 1) := by
  simp only [deserialize_uint8_t, range_one, List.foldl_cons, List.foldl_nil]
  have := load_lt m p
  norm_num
  omega

theorem deserialize_string_eq (m : Mem) (p : Nat) (dst : List Nat) (n : Nat) :
    deserialize_string m p dst n = (peek m p n ++ dst.drop n, p + n) := by
  rw [deserialize_string, peek_eq_map_range]

theorem peek_four (m : Mem) (p : Nat) :
    peek m p 4 = [load m p, load m (p + 1), load m (p + 2), load m (p + 3)] := by
  simp [peek, Nat.add_assoc]

theorem fromBe32_of_peek (m : Mem) (p x : Nat) (hx : x < 2 ^ 32) (h : peek m p 4 = be32 x) :
    fromBe32 m p = x := by
  rw [peek_four, be32] at h
  simp only [List.cons.injEq, and_true] at h
  obtain ⟨h0, h1, h2, h3⟩ := h
  rw [fromBe32, h0, h1, h2, h3]
  omega

theorem fromBe32_of_peek_int (m : Mem) (p : Nat) (x : Int) (hx : IsInt32 x)
    (h : peek m p 4 = be32i x) : wrap_int32 (fromBe32 m p) = x := by
  rw [peek_four, be32i] at h
  simp only [List.cons.injEq, and_true] at h
  obtain ⟨h0, h1, h2, h3⟩ := h
  obtain ⟨hl, hu⟩ := hx
  rw [fromBe32, h0, h1, h2, h3, wrap_int32]
  split <;> omega

theorem be32_length (x : Nat) : (be32 x).length = 4 := rfl

theorem be32i_length (x : Int) : (be32i x).length = 4 := rfl

theorem blocksBytes_length (bs : List BlockModification) :
    (blocksBytes bs).length = 4 * bs.length := by
  induction bs with
  | nil => rfl
  | cons b bs ih => simp [blocksBytes, blockBytes, ih]; omega

theorem chunkHeaderBytes_length (c : ChunkModification) : (chunkHeaderBytes c).length = 12 := rfl

theorem headersBytes_length (cs : List ChunkModification) :
    (headersBytes cs).length = 12 * cs.length := by
  induction cs with
  | nil => rfl
  | cons c cs ih =>
    simp only [headersBytes, List.length_append, chunkHeaderBytes_length, ih, List.length_cons]
    omega

theorem allBlocksBytes_length (cs : List ChunkModification) :
    (allBlocksBytes cs).length = 4 * totalBlocks cs := by
  induction cs with
  | nil => rfl
  | cons c cs ih =>
    simp only [allBlocksBytes, List.length_append, blocksBytes_length, ih, totalBlocks,
      ChunkModification.modifiedBlocksCount]
    omega

theorem headersBytes_append (as bs : List ChunkModification) :
    headersBytes (as ++ bs) = headersBytes as ++ headersBytes bs := by
  induction as with
  | nil => rfl
  | cons a as ih => simp [headersBytes, ih]

theorem allBlocksBytes_append (as bs : List ChunkModification) :
    allBlocksBytes (as ++ bs) = allBlocksBytes as ++ allBlocksBytes bs := by
  induction as with
  | nil => rfl
  | cons a as ih => simp [allBlocksBytes, ih]

theorem blocksBytes_append (as bs : List BlockModification) :
    blocksBytes (as ++ bs) = blocksBytes as ++ blocksBytes bs := by
  induction as with
  | nil => rfl
  | cons a as ih => simp [blocksBytes, ih]

theorem totalBlocks_append (as bs : List ChunkModification) :
    totalBlocks (as ++ bs) = totalBlocks as + totalBlocks bs := by
  induction as with
  | nil => simp [totalBlocks]
  | cons a as ih => simp [totalBlocks, ih]; omega

theorem cstr_length_le (s : List Nat) : strlen s ≤ s.length := by
  unfold strlen cstr
  exact (List.takeWhile_sublist _).length_le

theorem padField_length (n : Nat) (s : List Nat) (h : strlen s ≤ n) :
    (padField n s).length = n := by
  unfold padField
  rw [List.length_append, List.length_replicate]
  unfold strlen at h ⊢
  omega

theorem strcpy_replicate (n : Nat) (s : List Nat) (h : strlen s < n) :
    strcpy (List.replicate n 0) s = some (padField n s) := by
  unfold strcpy padField
  rw [List.length_replicate, if_pos h, List.drop_replicate]
  have e : n - strlen s = (n - (strlen s + 1)) + 1 := by omega
  rw [e, List.replicate_succ]

theorem strcpy_overrun (n : Nat) (s : List Nat) (h : n ≤ strlen s) :
    strcpy (List.replicate n 0) s = none := by
  unfold strcpy
  rw [List.length_replicate, if_neg (by omega)]

theorem map_getD_range (l : List Nat) :
    (List.range l.length).map (fun i => l.getD i 0) = l := by
  apply List.ext_getElem
  · simp
  · intro i h1 h2
    simp only [List.getElem_map, List.getElem_range]
    exact List.getD_eq_getElem l 0 h2

theorem fileMagic_text :
    (List.range (strlen fileMagic)).map (fun i => fileMagic.getD i 0)
      = fileMagic.take (fileMagic.length - 1) := by decide

theorem fixedHeaderBytes_length (SAVENAME_MAX SEED_MAX : Nat) (save : SaveFile)
    (hname : strlen save.name ≤ SAVENAME_MAX) (hseed : strlen save.seed ≤ SEED_MAX) :
    (fixedHeaderBytes SAVENAME_MAX SEED_MAX save).length = headerSize SAVENAME_MAX SEED_MAX := by
  simp only [fixedHeaderBytes, List.length_append, padField_length _ _ hname,
    padField_length _ _ hseed, be32_length, be32i_length, headerSize, List.length_take]
  simp [fileMagic]

/-! ## What the writer leaves in memory -/

theorem write_blocks_eq (c : Cursor) (bs : List BlockModification) :
    write_blocks c bs
      = { mem := poke c.mem c.pos (blocksBytes bs), pos := c.pos + 4 * bs.length } := by
  induction bs generalizing c with
  | nil => simp [write_blocks, blocksBytes, poke]
  | cons b bs ih =>
    rw [write_blocks, ih]
    simp only [serialize_uint8_t_eq, blocksBytes, blockBytes, List.length_cons, poke,
      List.cons_append, List.nil_append, Cursor.mk.injEq]
    constructor
    · simp [Nat.add_assoc]
    · omega

theorem write_chunks_ptr (s : SaveCursor) (cs : List ChunkModification) :
    (write_chunks s cs).ptr = s.ptr + 12 * cs.length := by
  induction cs generalizing s with
  | nil => simp [write_chunks]
  | cons c cs ih =>
    rw [write_chunks]
    simp only [ih, serialize_uint32_t_eq, serialize_int32_t_eq, List.length_cons]
    omega

theorem write_chunks_blockData (s : SaveCursor) (cs : List ChunkModification) :
    (write_chunks s cs).blockData = s.blockData + 4 * totalBlocks cs := by
  induction cs generalizing s with
  | nil => simp [write_chunks, totalBlocks]
  | cons c cs ih =>
    rw [write_chunks]
    simp only [ih, write_blocks_eq, totalBlocks, ChunkModification.modifiedBlocksCount]
    omega

theorem write_chunks_mem (s : SaveCursor) (cs : List ChunkModification)
    (h : s.ptr + 12 * cs.length ≤ s.blockData) :
    (write_chunks s cs).mem
      = poke (poke s.mem s.ptr (headersBytes cs)) s.blockData (allBlocksBytes cs) := by
  induction cs generalizing s with
  | nil => simp [write_chunks, headersBytes, allBlocksBytes, poke]
  | cons c cs ih =>
    rw [write_chunks]
    simp only [List.length_cons] at h
    rw [ih _ (by
      simp only [serialize_uint32_t_eq, serialize_int32_t_eq, write_blocks_eq]
      omega)]
    simp only [serialize_uint32_t_eq, serialize_int32_t_eq, write_blocks_eq, headersBytes,
      allBlocksBytes, chunkHeaderBytes]
    rw [poke_comm _ s.blockData (s.ptr + 4 + 4 + 4) (blocksBytes c.modifiedBlocks)
      (headersBytes cs) (Or.inr (by rw [headersBytes_length]; omega))]
    simp only [poke_append, List.length_append, be32_length, be32i_length, blocksBytes_length,
      Nat.add_assoc]

theorem calc_save_size_fold (cs : List ChunkModification) (size : Nat) :
    cs.foldl (fun size c => size + 4 + 4 + 4 + 4 + c.modifiedBlocksCount * 4 * 1) size
      = size + 16 * cs.length + 4 * totalBlocks cs := by
  induction cs generalizing size with
  | nil => simp [totalBlocks]
  | cons c cs ih =>
    rw [List.foldl_cons, ih]
    simp only [List.length_cons, totalBlocks]
    omega

theorem calc_save_size_eq (SAVENAME_MAX SEED_MAX : Nat) (save : SaveFile) :
    calc_save_size SAVENAME_MAX SEED_MAX save
      = headerSize SAVENAME_MAX SEED_MAX + 16 * save.modifiedChunksCount
        + 4 * totalBlocks save.modifiedChunks := by
  simp only [calc_save_size, calc_save_size_fold, headerSize, SaveFile.modifiedChunksCount]
  omega

theorem write_save_eq (SAVENAME_MAX SEED_MAX : Nat) (save : SaveFile) (buffer : Mem)
    (bufSize : Nat) (hname : strlen save.name < SAVENAME_MAX)
    (hseed : strlen save.seed < SEED_MAX) :
    write_save SAVENAME_MAX SEED_MAX save buffer bufSize
      = some { mem := writtenMem SAVENAME_MAX SEED_MAX save buffer
               blockData := calc_save_size SAVENAME_MAX SEED_MAX save
               status := if bufSize ≥ calc_save_size SAVENAME_MAX SEED_MAX save
                 then Status.completed else Status.assertFailed } := by
  have hn := padField_length SAVENAME_MAX save.name (le_of_lt hname)
  have hs := padField_length SEED_MAX save.seed (le_of_lt hseed)
  have hmagic : strlen fileMagic = 15 := by decide
  have fn : (List.range SAVENAME_MAX).map (fun i => (padField SAVENAME_MAX save.name).getD i 0)
      = padField SAVENAME_MAX save.name := by
    have := map_getD_range (padField SAVENAME_MAX save.name)
    rwa [hn] at this
  have fs : (List.range SEED_MAX).map (fun i => (padField SEED_MAX save.seed).getD i 0)
      = padField SEED_MAX save.seed := by
    have := map_getD_range (padField SEED_MAX save.seed)
    rwa [hs] at this
  have hlen : (fileMagic.take (fileMagic.length - 1)).length = 15 := by decide
  unfold write_save
  rw [strcpy_replicate _ _ hname, strcpy_replicate _ _ hseed]
  simp only [Option.some_bind, Option.some.injEq]
  simp only [serialize_string_eq, serialize_int32_t_eq, serialize_uint32_t_eq, fn, fs,
    fileMagic_text]
  have hpos : 0 + strlen fileMagic + SAVENAME_MAX + SEED_MAX + 4 + 4 + 4 + 4
      = headerSize SAVENAME_MAX SEED_MAX := by
    simp only [headerSize, hmagic]
    have : fileMagic.length = 16 := by decide
    omega
  have hbd : headerSize SAVENAME_MAX SEED_MAX + save.modifiedChunksCount * CHUNK_MOD_SIZE
      = headerSize SAVENAME_MAX SEED_MAX + 16 * save.modifiedChunksCount := by
    simp only [CHUNK_MOD_SIZE]; omega
  rw [hpos, hbd]
  have hle : headerSize SAVENAME_MAX SEED_MAX + 12 * save.modifiedChunks.length
      ≤ headerSize SAVENAME_MAX SEED_MAX + 16 * save.modifiedChunksCount := by
    unfold SaveFile.modifiedChunksCount; omega
  rw [write_chunks_blockData, write_chunks_mem _ _ hle, calc_save_size_eq]
  have hflen : fileMagic.length = 16 := by decide
  have hH : headerSize SAVENAME_MAX SEED_MAX = 15 + (SAVENAME_MAX + (SEED_MAX + 16)) := by
    simp only [headerSize, hflen]; omega
  simp only [writtenMem, fixedHeaderBytes, poke_append, List.length_append, hn, hs, hlen,
    hmagic, be32_length, be32i_length, Nat.zero_add, Nat.add_assoc, hH]

/-! ## What the reader finds in memory -/

theorem peek_append_split (m : Mem) (p : Nat) (as bs : List Nat)
    (h : peek m p (as ++ bs).length = as ++ bs) :
    peek m p as.length = as ∧ peek m (p + as.length) bs.length = bs := by
  rw [List.length_append, peek_add] at h
  exact List.append_inj h (peek_length m p as.length)

theorem map_mod_of_allBytes (l : List Nat) (h : AllBytes l) :
    l.map (fun b => b % 256) = l := by
  induction l with
  | nil => rfl
  | cons a l ih =>
    rw [List.map_cons, ih (fun b hb => h b (List.mem_cons_of_mem _ hb)),
      Nat.mod_eq_of_lt (h a (List.mem_cons_self _ _))]

theorem allBytes_append (as bs : List Nat) (ha : AllBytes as) (hb : AllBytes bs) :
    AllBytes (as ++ bs) := by
  intro b h
  rcases List.mem_append.mp h with h | h
  · exact ha b h
  · exact hb b h

theorem allBytes_be32 (x : Nat) : AllBytes (be32 x) := by
  intro b h
  simp only [be32, List.mem_cons, List.mem_singleton, List.not_mem_nil, or_false] at h
  omega

theorem allBytes_be32i (x : Int) : AllBytes (be32i x) := by
  intro b h
  simp only [be32i, List.mem_cons, List.mem_singleton, List.not_mem_nil, or_false] at h
  omega

theorem allBytes_blocksBytes (bs : List BlockModification) (h : ∀ b ∈ bs, b.WellTyped) :
    AllBytes (blocksBytes bs) := by
  induction bs with
  | nil => intro b hb; simp [blocksBytes] at hb
  | cons a bs ih =>
    apply allBytes_append
    · obtain ⟨h1, h2, h3, h4⟩ := h a (List.mem_cons_self _ _)
      intro b hb
      simp only [blockBytes, List.mem_cons, List.mem_singleton, List.not_mem_nil,
        or_false] at hb
      omega
    · exact ih (fun b hb => h b (List.mem_cons_of_mem _ hb))

theorem allBytes_allBlocksBytes (cs : List ChunkModification) (h : ∀ c ∈ cs, c.WellTyped) :
    AllBytes (allBlocksBytes cs) := by
  induction cs with
  | nil => intro b hb; simp [allBlocksBytes] at hb
  | cons c cs ih =>
    apply allBytes_append
    · exact allBytes_blocksBytes _ (h c (List.mem_cons_self _ _)).2.2.2
    · exact ih (fun b hb => h b (List.mem_cons_of_mem _ hb))

theorem allBytes_headersBytes (cs : List ChunkModification) : AllBytes (headersBytes cs) := by
  induction cs with
  | nil => intro b hb; simp [headersBytes] at hb
  | cons c cs ih =>
    exact allBytes_append _ _ (allBytes_append _ _ (allBytes_append _ _ (allBytes_be32i _)
      (allBytes_be32i _)) (allBytes_be32 _)) ih

theorem read_blocks_of_peek (m : Mem) (bd : Nat) (bs : List BlockModification)
    (h : peek m bd (blocksBytes bs).length = blocksBytes bs) :
    read_blocks m bs.length bd = (bs, bd + 4 * bs.length) := by
  induction bs generalizing bd with
  | nil => simp [read_blocks]
  | cons b bs ih =>
    rw [blocksBytes] at h
    obtain ⟨h1, h2⟩ := peek_append_split m bd _ _ h
    have e : (blockBytes b).length = 4 := rfl
    rw [e] at h1 h2
    rw [peek_four, blockBytes] at h1
    simp only [List.cons.injEq, and_true] at h1
    obtain ⟨hx, hy, hz, ht⟩ := h1
    rw [List.length_cons, read_blocks]
    simp only [deserialize_uint8_t_eq]
    have e4 : bd + 1 + 1 + 1 + 1 = bd + 4 := by omega
    have e2 : bd + 1 + 1 = bd + 2 := by omega
    have e3 : bd + 1 + 1 + 1 = bd + 3 := by omega
    rw [e4, ih _ h2, e2, e3, hx, hy, hz, ht]
    simp only [Prod.mk.injEq, List.cons.injEq, and_true, true_and]
    omega

theorem read_chunks_of_peek (m : Mem) (p bd : Nat) (cs : List ChunkModification)
    (hv : ∀ c ∈ cs, c.WellTyped)
    (h1 : peek m p (headersBytes cs).length = headersBytes cs)
    (h2 : peek m bd (allBlocksBytes cs).length = allBlocksBytes cs) :
    read_chunks m cs.length p bd = (cs, p + 12 * cs.length, bd + 4 * totalBlocks cs) := by
  induction cs generalizing p bd with
  | nil => simp [read_chunks, totalBlocks]
  | cons c cs ih =>
    obtain ⟨vx, vz, vk, _⟩ := hv c (List.mem_cons_self _ _)
    rw [headersBytes] at h1
    rw [allBlocksBytes] at h2
    obtain ⟨hh, ht⟩ := peek_append_split m p _ _ h1
    obtain ⟨bh, bt⟩ := peek_append_split m bd _ _ h2
    rw [chunkHeaderBytes] at hh
    obtain ⟨hxz, hk⟩ := peek_append_split m p _ _ hh
    obtain ⟨hx, hz⟩ := peek_append_split m p _ _ hxz
    simp only [List.length_append, be32_length, be32i_length] at hx hz hk
    have ex := fromBe32_of_peek_int m p c.x vx hx
    have ez := fromBe32_of_peek_int m (p + 4) c.z vz hz
    have ek := fromBe32_of_peek m (p + (4 + 4)) c.modifiedBlocksCount vk hk
    rw [List.length_cons, read_chunks]
    simp only [deserialize_int32_t_eq, deserialize_uint32_t_eq]
    have e8 : p + 4 + 4 = p + (4 + 4) := by omega
    rw [e8, ex, ez, ek]
    have rb := read_blocks_of_peek m bd c.modifiedBlocks bh
    rw [ChunkModification.modifiedBlocksCount, rb]
    simp only [chunkHeaderBytes_length, blocksBytes_length] at ht bt
    have e12 : p + (4 + 4) + 4 = p + 12 := by omega
    rw [e12, ih (p + 12) (bd + 4 * c.modifiedBlocks.length)
      (fun c' hc => hv c' (List.mem_cons_of_mem _ hc)) ht bt]
    simp only [Prod.mk.injEq, List.cons.injEq, and_true, true_and, totalBlocks,
      ChunkModification.modifiedBlocksCount]
    omega

theorem magicBytes_length : magicBytes.length = 15 := by decide

theorem fileMagic_eq : fileMagic = magicBytes ++ [0] := by decide

theorem strcmp_terminated (a b : List Nat) (hb : ∀ x ∈ b, x ≠ 0) (hl : a.length = b.length) :
    strcmp (a ++ [0]) (b ++ [0]) = 0 ↔ a = b := by
  induction a generalizing b with
  | nil =>
    cases b with
    | nil => simp [strcmp]
    | cons y b => simp at hl
  | cons x a ih =>
    cases b with
    | nil => simp at hl
    | cons y b =>
      simp only [List.length_cons, Nat.add_right_cancel_iff] at hl
      have hy : y ≠ 0 := hb y (List.mem_cons_self _ _)
      rw [List.cons_append, List.cons_append, strcmp]
      by_cases hxy : x = y
      · subst hxy
        simp only [ne_eq, not_true_eq_false, if_false, if_neg hy, List.cons.injEq, true_and]
        exact ih b (fun z hz => hb z (List.mem_cons_of_mem _ hz)) hl
      · have hne : (x : Int) - (y : Int) ≠ 0 := by omega
        simp [hxy, hne]

theorem strcmp_magic (l : List Nat) (hl : l.length = 15) :
    strcmp (l ++ [0]) fileMagic = 0 ↔ l = magicBytes := by
  rw [fileMagic_eq]
  exact strcmp_terminated l magicBytes (by decide) (by rw [hl, magicBytes_length])

theorem read_save_of_magic {heap : Heap} (SAVENAME_MAX SEED_MAX : Nat) (save : SaveFile) (buffer : Mem)
    (bufSize : Nat) (h : peek buffer 0 15 = magicBytes) :
    read_save heap SAVENAME_MAX SEED_MAX save buffer bufSize
      = parsed heap SAVENAME_MAX SEED_MAX save buffer bufSize := by
  have hflen : fileMagic.length - 1 = 15 := by decide
  have hs : strcmp (peek buffer 0 15 ++ [0]) fileMagic = 0 :=
    (strcmp_magic _ (peek_length _ _ _)).mpr h
  unfold read_save
  simp only [deserialize_string_eq, deserialize_int32_t_eq, deserialize_uint32_t_eq, hflen,
    List.drop_nil, List.append_nil, hs, ne_eq, not_true_eq_false, if_false, Nat.zero_add]
  have hH : headerSize SAVENAME_MAX SEED_MAX = 15 + SAVENAME_MAX + SEED_MAX + 4 + 4 + 4 + 4 := by
    simp only [headerSize, hflen]
  have hc : fromBe32 buffer (15 + SAVENAME_MAX + SEED_MAX + 4 + 4 + 4) * CHUNK_MOD_SIZE
      = 16 * fromBe32 buffer (15 + SAVENAME_MAX + SEED_MAX + 4 + 4 + 4) := by
    simp only [CHUNK_MOD_SIZE]; omega
  have e8 : 15 + SAVENAME_MAX + SEED_MAX + 8 = 15 + SAVENAME_MAX + SEED_MAX + 4 + 4 := by omega
  have e12 : 15 + SAVENAME_MAX + SEED_MAX + 12
      = 15 + SAVENAME_MAX + SEED_MAX + 4 + 4 + 4 := by omega
  simp only [parsed, hH, hc, e8, e12]

theorem read_save_of_not_magic {heap : Heap} (SAVENAME_MAX SEED_MAX : Nat) (save : SaveFile) (buffer : Mem)
    (bufSize : Nat) (h : peek buffer 0 15 ≠ magicBytes) :
    read_save heap SAVENAME_MAX SEED_MAX save buffer bufSize
      = { status := Status.magicMismatch, save := save, blockData := 0 } := by
  have hflen : fileMagic.length - 1 = 15 := by decide
  have hs : strcmp (peek buffer 0 15 ++ [0]) fileMagic ≠ 0 :=
    fun e => h ((strcmp_magic _ (peek_length _ _ _)).mp e)
  unfold read_save
  simp only [deserialize_string_eq, hflen, List.drop_nil, List.append_nil, ne_eq, hs,
    not_false_eq_true, if_true]

/-! ## Reading back what was written -/

theorem allBytes_cstr (s : List Nat) (h : AllBytes s) : AllBytes (cstr s) :=
  fun b hb => h b ((List.takeWhile_sublist _).subset hb)

theorem allBytes_padField (n : Nat) (s : List Nat) (h : AllBytes s) :
    AllBytes (padField n s) := by
  apply allBytes_append _ _ (allBytes_cstr s h)
  intro b hb
  rw [List.eq_of_mem_replicate hb]
  decide

theorem allBytes_fixedHeaderBytes (SAVENAME_MAX SEED_MAX : Nat) (save : SaveFile)
    (hn : AllBytes save.name) (hs : AllBytes save.seed) :
    AllBytes (fixedHeaderBytes SAVENAME_MAX SEED_MAX save) := by
  have hm : AllBytes (fileMagic.take (fileMagic.length - 1)) := by decide
  exact allBytes_append _ _ (allBytes_append _ _ (allBytes_append _ _ (allBytes_append _ _
    (allBytes_append _ _ (allBytes_append _ _ hm (allBytes_padField _ _ hn))
    (allBytes_padField _ _ hs)) (allBytes_be32i _)) (allBytes_be32i _)) (allBytes_be32i _))
    (allBytes_be32 _)

theorem writtenMem_head (SAVENAME_MAX SEED_MAX : Nat) (save : SaveFile) (buffer : Mem)
    (hname : strlen save.name ≤ SAVENAME_MAX) (hseed : strlen save.seed ≤ SEED_MAX) :
    peek (writtenMem SAVENAME_MAX SEED_MAX save buffer) 0
        (fixedHeaderBytes SAVENAME_MAX SEED_MAX save ++ headersBytes save.modifiedChunks).length
      = (fixedHeaderBytes SAVENAME_MAX SEED_MAX save ++ headersBytes save.modifiedChunks).map
          (fun b => b % 256) := by
  unfold writtenMem
  rw [peek_poke_outside _ _ _ _ _ (Or.inl (by
    rw [List.length_append, fixedHeaderBytes_length _ _ _ hname hseed, headersBytes_length]
    unfold SaveFile.modifiedChunksCount
    omega))]
  exact peek_poke_same _ _ _

theorem writtenMem_blocks (SAVENAME_MAX SEED_MAX : Nat) (save : SaveFile) (buffer : Mem) :
    peek (writtenMem SAVENAME_MAX SEED_MAX save buffer)
        (headerSize SAVENAME_MAX SEED_MAX + 16 * save.modifiedChunksCount)
        (allBlocksBytes save.modifiedChunks).length
      = (allBlocksBytes save.modifiedChunks).map (fun b => b % 256) := by
  unfold writtenMem
  exact peek_poke_same _ _ _

theorem cstr_padField_append (n : Nat) (s rest : List Nat) (h : strlen s < n) :
    cstr (padField n s ++ rest) = cstr s := by
  have e : n - strlen s = (n - strlen s - 1) + 1 := by omega
  have hp : ∀ a ∈ List.takeWhile (fun b => decide (b ≠ 0)) s,
      (fun b => decide (b ≠ 0)) a = true :=
    fun a ha => @List.mem_takeWhile_imp _ (fun b => decide (b ≠ 0)) s a ha
  unfold padField
  rw [e, List.replicate_succ, List.append_assoc]
  unfold cstr
  rw [List.takeWhile_append_of_pos hp, List.cons_append,
    List.takeWhile_cons_of_neg (by simp), List.append_nil]

theorem read_written {heap : Heap} (SAVENAME_MAX SEED_MAX : Nat) (save dst : SaveFile) (buffer : Mem)
    (bufSize : Nat)
    (hname : strlen save.name ≤ SAVENAME_MAX) (hseed : strlen save.seed ≤ SEED_MAX)
    (hv : save.WellTyped) :
    read_save heap SAVENAME_MAX SEED_MAX dst (writtenMem SAVENAME_MAX SEED_MAX save buffer) bufSize
      = { status := finalStatus heap
            (headerSize SAVENAME_MAX SEED_MAX + 16 * save.modifiedChunksCount)
            save.modifiedChunksCount save.modifiedChunks
            (calc_save_size SAVENAME_MAX SEED_MAX save) bufSize
          save :=
            { name := padField SAVENAME_MAX save.name ++ dst.name.drop SAVENAME_MAX
              seed := padField SEED_MAX save.seed ++ dst.seed.drop SEED_MAX
              spawnX := save.spawnX
              spawnY := save.spawnY
              spawnZ := save.spawnZ
              modifiedChunks := save.modifiedChunks }
          blockData := calc_save_size SAVENAME_MAX SEED_MAX save } := by
  obtain ⟨vn, vs, vx, vy, vz, vc, vcs⟩ := hv
  have hh := writtenMem_head SAVENAME_MAX SEED_MAX save buffer hname hseed
  have hb := writtenMem_blocks SAVENAME_MAX SEED_MAX save buffer
  rw [map_mod_of_allBytes _ (allBytes_append _ _
    (allBytes_fixedHeaderBytes _ _ _ vn vs) (allBytes_headersBytes _))] at hh
  rw [map_mod_of_allBytes _ (allBytes_allBlocksBytes _ vcs)] at hb
  generalize writtenMem SAVENAME_MAX SEED_MAX save buffer = m at hh hb
  obtain ⟨hf, hhd⟩ := peek_append_split m 0 _ _ hh
  rw [fixedHeaderBytes_length _ _ _ hname hseed, Nat.zero_add] at hhd
  unfold fixedHeaderBytes at hf
  obtain ⟨h6, hcount⟩ := peek_append_split m 0 _ _ hf
  obtain ⟨h5, hsz⟩ := peek_append_split m 0 _ _ h6
  obtain ⟨h4, hsy⟩ := peek_append_split m 0 _ _ h5
  obtain ⟨h3, hsx⟩ := peek_append_split m 0 _ _ h4
  obtain ⟨h2, hsd⟩ := peek_append_split m 0 _ _ h3
  obtain ⟨hmg, hnm⟩ := peek_append_split m 0 _ _ h2
  have hlen : (fileMagic.take (fileMagic.length - 1)).length = 15 := by decide
  simp only [List.length_append, hlen, padField_length _ _ hname, padField_length _ _ hseed,
    be32_length, be32i_length, Nat.zero_add] at hmg hnm hsd hsx hsy hsz hcount
  rw [read_save_of_magic _ _ _ _ _ hmg]
  have e4 : 15 + SAVENAME_MAX + SEED_MAX + 4 + 4 = 15 + SAVENAME_MAX + SEED_MAX + 8 := by omega
  have e12 : 15 + SAVENAME_MAX + SEED_MAX + 4 + 4 + 4
      = 15 + SAVENAME_MAX + SEED_MAX + 12 := by omega
  rw [e4] at hsz
  rw [e12] at hcount
  have rc := fromBe32_of_peek m _ _ vc hcount
  have rch := read_chunks_of_peek m (headerSize SAVENAME_MAX SEED_MAX)
    (headerSize SAVENAME_MAX SEED_MAX + 16 * save.modifiedChunksCount) save.modifiedChunks
    vcs hhd hb
  unfold parsed
  simp only [rc, fromBe32_of_peek_int m _ _ vx hsx, fromBe32_of_peek_int m _ _ vy hsy,
    fromBe32_of_peek_int m _ _ vz hsz, hnm, hsd]
  have rch2 : read_chunks m save.modifiedChunksCount (headerSize SAVENAME_MAX SEED_MAX)
      (headerSize SAVENAME_MAX SEED_MAX + 16 * save.modifiedChunksCount)
      = (save.modifiedChunks, headerSize SAVENAME_MAX SEED_MAX + 12 * save.modifiedChunks.length,
          headerSize SAVENAME_MAX SEED_MAX + 16 * save.modifiedChunksCount
            + 4 * totalBlocks save.modifiedChunks) := rch
  simp only [rch2, calc_save_size_eq]

/-! ## The reader on an arbitrary buffer -/

theorem read_blocks_length (m : Mem) (k bd : Nat) : (read_blocks m k bd).1.length = k := by
  induction k generalizing bd with
  | zero => rfl
  | succ k ih => simp [read_blocks, ih]

theorem read_blocks_pos (m : Mem) (k bd : Nat) : (read_blocks m k bd).2 = bd + 4 * k := by
  induction k generalizing bd with
  | zero => rfl
  | succ k ih =>
    rw [read_blocks]
    simp only [ih, deserialize_uint8_t_eq]
    omega

theorem read_blocks_get (m : Mem) (k bd j : Nat) (hj : j < k) :
    (read_blocks m k bd).1[j]?
      = some { x := load m (bd + 4 * j), y := load m (bd + 4 * j + 1),
               z := load m (bd + 4 * j + 2), type := load m (bd + 4 * j + 3) } := by
  induction k generalizing bd j with
  | zero => omega
  | succ k ih =>
    rw [read_blocks]
    simp only [deserialize_uint8_t_eq]
    cases j with
    | zero => simp [Nat.add_assoc]
    | succ j =>
      rw [List.getElem?_cons_succ, ih _ _ (by omega)]
      have e : bd + 1 + 1 + 1 + 1 + 4 * j = bd + 4 * (j + 1) := by omega
      rw [e]

theorem read_chunks_length (m : Mem) (n p bd : Nat) : (read_chunks m n p bd).1.length = n := by
  induction n generalizing p bd with
  | zero => rfl
  | succ n ih => simp [read_chunks, ih]

theorem read_chunks_ptr (m : Mem) (n p bd : Nat) : (read_chunks m n p bd).2.1 = p + 12 * n := by
  induction n generalizing p bd with
  | zero => rfl
  | succ n ih =>
    rw [read_chunks]
    simp only [ih, deserialize_int32_t_eq, deserialize_uint32_t_eq]
    omega

theorem read_chunks_blockData (m : Mem) (n p bd : Nat) :
    (read_chunks m n p bd).2.2 = bd + 4 * totalBlocks (read_chunks m n p bd).1 := by
  induction n generalizing p bd with
  | zero => rfl
  | succ n ih =>
    rw [read_chunks]
    simp only [ih, totalBlocks, ChunkModification.modifiedBlocksCount, read_blocks_pos,
      read_blocks_length]
    omega

theorem read_chunks_get (m : Mem) (n p bd i : Nat) (hi : i < n) :
    (read_chunks m n p bd).1[i]?
      = some { x := wrap_int32 (fromBe32 m (p + 12 * i))
               z := wrap_int32 (fromBe32 m (p + 12 * i + 4))
               modifiedBlocks := (read_blocks m (fromBe32 m (p + 12 * i + 8))
                 (bd + 4 * totalBlocks ((read_chunks m n p bd).1.take i))).1 } := by
  induction n generalizing p bd i with
  | zero => omega
  | succ n ih =>
    rw [read_chunks]
    simp only [deserialize_int32_t_eq, deserialize_uint32_t_eq]
    cases i with
    | zero => simp [totalBlocks, Nat.add_assoc]
    | succ i =>
      rw [List.getElem?_cons_succ, ih _ _ _ (by omega)]
      simp only [List.take_succ_cons, totalBlocks, ChunkModification.modifiedBlocksCount,
        read_blocks_pos, read_blocks_length]
      have e1 : p + 4 + 4 + 4 + 12 * i = p + 12 * (i + 1) := by omega
      have e2 : ∀ t, bd + 4 * fromBe32 m (p + 4 + 4) + 4 * t
          = bd + 4 * (fromBe32 m (p + 4 + 4) + t) := by intro t; omega
      rw [e1, e2]

theorem totalBlocks_eq_sum (cs : List ChunkModification) :
    totalBlocks cs = (cs.map (fun c => c.modifiedBlocksCount)).sum := by
  induction cs with
  | nil => rfl
  | cons c cs ih => simp [totalBlocks, ih]

theorem peek_getD (m : Mem) (p n i : Nat) (h : i < n) :
    (peek m p n).getD i 0 = load m (p + i) := by
  induction n generalizing p i with
  | zero => omega
  | succ n ih =>
    rw [peek]
    cases i with
    | zero => simp
    | succ i =>
      rw [List.getD_cons_succ, ih _ _ (by omega)]
      congr 1
      omega

theorem peek_mid (m : Mem) (p : Nat) (as bs cs : List Nat)
    (h : peek m p (as ++ bs ++ cs).length = as ++ bs ++ cs) :
    peek m (p + as.length) bs.length = bs :=
  (peek_append_split m p as bs (peek_append_split m p (as ++ bs) cs h).1).2

/-! ## Single records inside the written buffer -/

theorem peek_slice (m : Mem) (p : Nat) (l as bs cs : List Nat) (hl : l = as ++ bs ++ cs)
    (h : peek m p l.length = l.map (fun b => b % 256)) :
    peek m (p + as.length) bs.length = bs.map (fun b => b % 256) := by
  subst hl
  have h' : peek m p (as.map (fun b => b % 256) ++ bs.map (fun b => b % 256)
      ++ cs.map (fun b => b % 256)).length
      = as.map (fun b => b % 256) ++ bs.map (fun b => b % 256)
        ++ cs.map (fun b => b % 256) := by
    simpa only [List.map_append, List.length_append, List.length_map] using h
  have := peek_mid m p _ _ _ h'
  simpa only [List.length_map] using this

theorem list_split_at {α : Type} (l : List α) (i : Nat) (hi : i < l.length) :
    l = l.take i ++ l[i] :: l.drop (i + 1) := by
  rw [← List.drop_eq_getElem_cons hi, List.take_append_drop]

theorem headersBytes_split (cs : List ChunkModification) (i : Nat) (hi : i < cs.length) :
    headersBytes cs
      = headersBytes (cs.take i) ++ chunkHeaderBytes cs[i] ++ headersBytes (cs.drop (i + 1)) := by
  conv_lhs => rw [list_split_at cs i hi]
  rw [headersBytes_append, headersBytes, List.append_assoc]

theorem blocksBytes_split (bs : List BlockModification) (j : Nat) (hj : j < bs.length) :
    blocksBytes bs
      = blocksBytes (bs.take j) ++ blockBytes bs[j] ++ blocksBytes (bs.drop (j + 1)) := by
  conv_lhs => rw [list_split_at bs j hj]
  rw [blocksBytes_append, blocksBytes, List.append_assoc]

theorem allBlocksBytes_split (cs : List ChunkModification) (i : Nat) (hi : i < cs.length) :
    allBlocksBytes cs
      = allBlocksBytes (cs.take i) ++ blocksBytes cs[i].modifiedBlocks
        ++ allBlocksBytes (cs.drop (i + 1)) := by
  conv_lhs => rw [list_split_at cs i hi]
  rw [allBlocksBytes_append, allBlocksBytes, List.append_assoc]

theorem written_chunk_header (SAVENAME_MAX SEED_MAX : Nat) (save : SaveFile) (buffer : Mem)
    (hname : strlen save.name ≤ SAVENAME_MAX) (hseed : strlen save.seed ≤ SEED_MAX)
    (i : Nat) (hi : i < save.modifiedChunks.length) :
    peek (writtenMem SAVENAME_MAX SEED_MAX save buffer)
        (headerSize SAVENAME_MAX SEED_MAX + 12 * i) 12
      = chunkHeaderBytes save.modifiedChunks[i] := by
  have hh := writtenMem_head SAVENAME_MAX SEED_MAX save buffer hname hseed
  have hl : fixedHeaderBytes SAVENAME_MAX SEED_MAX save ++ headersBytes save.modifiedChunks
      = (fixedHeaderBytes SAVENAME_MAX SEED_MAX save ++ headersBytes (save.modifiedChunks.take i))
        ++ chunkHeaderBytes save.modifiedChunks[i]
        ++ headersBytes (save.modifiedChunks.drop (i + 1)) := by
    rw [headersBytes_split _ i hi]
    simp only [List.append_assoc]
  have := peek_slice _ 0 _ _ _ _ hl hh
  rw [List.length_append, fixedHeaderBytes_length _ _ _ hname hseed, headersBytes_length,
    List.length_take, Nat.min_eq_left (le_of_lt hi), chunkHeaderBytes_length, Nat.zero_add,
    map_mod_of_allBytes (chunkHeaderBytes save.modifiedChunks[i]) (allBytes_append _ _
      (allBytes_append _ _ (allBytes_be32i _) (allBytes_be32i _)) (allBytes_be32 _))] at this
  exact this

theorem written_block (SAVENAME_MAX SEED_MAX : Nat) (save : SaveFile) (buffer : Mem)
    (i : Nat) (hi : i < save.modifiedChunks.length)
    (j : Nat) (hj : j < save.modifiedChunks[i].modifiedBlocks.length) :
    peek (writtenMem SAVENAME_MAX SEED_MAX save buffer)
        (headerSize SAVENAME_MAX SEED_MAX + 16 * save.modifiedChunksCount
          + 4 * (totalBlocks (save.modifiedChunks.take i) + j)) 4
      = (blockBytes save.modifiedChunks[i].modifiedBlocks[j]).map (fun b => b % 256) := by
  have hb := writtenMem_blocks SAVENAME_MAX SEED_MAX save buffer
  have hl : allBlocksBytes save.modifiedChunks
      = (allBlocksBytes (save.modifiedChunks.take i)
          ++ blocksBytes (save.modifiedChunks[i].modifiedBlocks.take j))
        ++ blockBytes save.modifiedChunks[i].modifiedBlocks[j]
        ++ (blocksBytes (save.modifiedChunks[i].modifiedBlocks.drop (j + 1))
          ++ allBlocksBytes (save.modifiedChunks.drop (i + 1))) := by
    rw [allBlocksBytes_split _ i hi, blocksBytes_split _ j hj]
    simp only [List.append_assoc]
  have := peek_slice _ _ _ _ _ _ hl hb
  rw [List.length_append, allBlocksBytes_length, blocksBytes_length, List.length_take,
    Nat.min_eq_left (le_of_lt hj)] at this
  have e : headerSize SAVENAME_MAX SEED_MAX + 16 * save.modifiedChunksCount
      + (4 * totalBlocks (save.modifiedChunks.take i) + 4 * j)
      = headerSize SAVENAME_MAX SEED_MAX + 16 * save.modifiedChunksCount
        + 4 * (totalBlocks (save.modifiedChunks.take i) + j) := by omega
  rw [e] at this
  exact this

theorem read_chunks_counts (m : Mem) (n p bd : Nat) :
    (read_chunks m n p bd).1.map (fun c => c.modifiedBlocksCount)
      = (List.range n).map (fun i => fromBe32 m (p + 12 * i + 8)) := by
  induction n generalizing p bd with
  | zero => rfl
  | succ n ih =>
    rw [read_chunks, List.range_succ_eq_map]
    simp only [List.map_cons, List.map_map, deserialize_int32_t_eq, deserialize_uint32_t_eq]
    rw [ih]
    refine congrArg₂ List.cons ?_ ?_
    · simp [ChunkModification.modifiedBlocksCount, read_blocks_length, Nat.add_assoc]
    · apply List.map_congr_left
      intro i _
      simp only [Function.comp, Nat.succ_eq_add_one]
      congr 1
      omega

theorem headerSize_sub_four (SAVENAME_MAX SEED_MAX : Nat) :
    headerSize SAVENAME_MAX SEED_MAX - 4 = 15 + SAVENAME_MAX + SEED_MAX + 12 := by
  have : fileMagic.length = 16 := by decide
  simp only [headerSize, this]; omega

theorem magicBytes_getD : ∀ i, i < 15 → magicBytes.getD i 0 = fileMagic.getD i 0 := by
  decide

theorem parsed_blockData {heap : Heap} (SAVENAME_MAX SEED_MAX : Nat) (dst : SaveFile) (buffer : Mem)
    (bufSize : Nat) :
    (parsed heap SAVENAME_MAX SEED_MAX dst buffer bufSize).blockData
      = headerSize SAVENAME_MAX SEED_MAX + 16 * declaredChunks SAVENAME_MAX SEED_MAX buffer
        + 4 * (declaredBlockCounts SAVENAME_MAX SEED_MAX buffer).sum := by
  simp only [parsed, declaredBlockCounts, declaredChunks, headerSize_sub_four,
    deserialize_uint32_t_eq, read_chunks_blockData, totalBlocks_eq_sum, read_chunks_counts]

theorem finalStatus_inRange (heap : Heap) (start count : Nat) (chunks : List ChunkModification)
    (blockData bufSize : Nat) (h0 : start ≤ blockData) (h1 : blockData < 2 ^ 32)
    (hs : HeapServes heap count chunks) :
    finalStatus heap start count chunks blockData bufSize
      = if bufSize ≥ blockData then Status.completed else Status.assertFailed := by
  unfold finalStatus
  rw [if_neg (by omega), if_neg (by
    intro h
    rcases h with h | h
    · omega
    · exact h hs)]

theorem finalStatus_wrap (heap : Heap) (start count : Nat) (chunks : List ChunkModification)
    (blockData bufSize : Nat) (h : 2 ^ 32 ≤ start) :
    finalStatus heap start count chunks blockData bufSize = Status.undetermined := by
  unfold finalStatus
  rw [if_pos h]

theorem declaredChunks_eq (SAVENAME_MAX SEED_MAX : Nat) (buffer : Mem) :
    declaredChunks SAVENAME_MAX SEED_MAX buffer
      = fromBe32 buffer (15 + SAVENAME_MAX + SEED_MAX + 12) := by
  simp only [declaredChunks, headerSize_sub_four, deserialize_uint32_t_eq]

theorem parsed_counts {heap : Heap} (SAVENAME_MAX SEED_MAX : Nat) (dst : SaveFile)
    (buffer : Mem) (bufSize : Nat) :
    (parsed heap SAVENAME_MAX SEED_MAX dst buffer bufSize).save.modifiedChunks.map
        (fun c => c.modifiedBlocksCount) = declaredBlockCounts SAVENAME_MAX SEED_MAX buffer := by
  simp only [parsed, read_chunks_counts, declaredBlockCounts, declaredChunks,
    headerSize_sub_four, deserialize_uint32_t_eq]

theorem parsed_status_inRange {heap : Heap} (SAVENAME_MAX SEED_MAX : Nat) (dst : SaveFile)
    (buffer : Mem) (bufSize : Nat) (h : InRange heap SAVENAME_MAX SEED_MAX buffer) :
    (parsed heap SAVENAME_MAX SEED_MAX dst buffer bufSize).status
      = if bufSize ≥ consumedBytes SAVENAME_MAX SEED_MAX buffer
        then Status.completed else Status.assertFailed := by
  obtain ⟨h1, h2, h3⟩ := h
  have hbd := @parsed_blockData heap SAVENAME_MAX SEED_MAX dst buffer bufSize
  have hcs := @parsed_counts heap SAVENAME_MAX SEED_MAX dst buffer bufSize
  have hn := declaredChunks_eq SAVENAME_MAX SEED_MAX buffer
  simp only [parsed] at hbd hcs ⊢
  rw [finalStatus_inRange _ _ _ _ _ _ (by rw [hbd, hn]; omega)
    (by rw [hbd]; exact h1) (by
      refine ⟨by rw [← hn]; exact h2, ?_⟩
      intro c hc
      apply h3
      rw [← hcs]
      exact List.mem_map_of_mem _ hc), hbd]
  rfl

theorem parsed_status_wrap {heap : Heap} (SAVENAME_MAX SEED_MAX : Nat) (dst : SaveFile)
    (buffer : Mem) (bufSize : Nat)
    (h : 2 ^ 32 ≤ headerSize SAVENAME_MAX SEED_MAX
      + 16 * declaredChunks SAVENAME_MAX SEED_MAX buffer) :
    (parsed heap SAVENAME_MAX SEED_MAX dst buffer bufSize).status = Status.undetermined := by
  rw [declaredChunks_eq] at h
  simp only [parsed]
  exact finalStatus_wrap _ _ _ _ _ _ h

/-! ## The fixed header inside the written buffer -/

theorem peek_split_len (m : Mem) (p n : Nat) (as bs : List Nat) (h : peek m p n = as ++ bs) :
    peek m p as.length = as ∧ peek m (p + as.length) bs.length = bs := by
  have hn : n = (as ++ bs).length := by rw [← h, peek_length]
  subst hn
  exact peek_append_split m p as bs h

theorem map_mod_be32 (x : Nat) : (be32 x).map (fun b => b % 256) = be32 x :=
  map_mod_of_allBytes _ (allBytes_be32 x)

theorem map_mod_be32i (x : Int) : (be32i x).map (fun b => b % 256) = be32i x :=
  map_mod_of_allBytes _ (allBytes_be32i x)

theorem map_mod_magic :
    (fileMagic.take (fileMagic.length - 1)).map (fun b => b % 256) = magicBytes := by decide

theorem written_fixed_fields (SAVENAME_MAX SEED_MAX : Nat) (save : SaveFile) (buffer : Mem)
    (hname : strlen save.name ≤ SAVENAME_MAX) (hseed : strlen save.seed ≤ SEED_MAX) :
    peek (writtenMem SAVENAME_MAX SEED_MAX save buffer) 0 15 = magicBytes
      ∧ peek (writtenMem SAVENAME_MAX SEED_MAX save buffer) 15 SAVENAME_MAX
        = (padField SAVENAME_MAX save.name).map (fun b => b % 256)
      ∧ peek (writtenMem SAVENAME_MAX SEED_MAX save buffer) (15 + SAVENAME_MAX) SEED_MAX
        = (padField SEED_MAX save.seed).map (fun b => b % 256)
      ∧ peek (writtenMem SAVENAME_MAX SEED_MAX save buffer) (15 + SAVENAME_MAX + SEED_MAX) 4
        = be32i save.spawnX
      ∧ peek (writtenMem SAVENAME_MAX SEED_MAX save buffer) (15 + SAVENAME_MAX + SEED_MAX + 4) 4
        = be32i save.spawnY
      ∧ peek (writtenMem SAVENAME_MAX SEED_MAX save buffer) (15 + SAVENAME_MAX + SEED_MAX + 8) 4
        = be32i save.spawnZ
      ∧ peek (writtenMem SAVENAME_MAX SEED_MAX save buffer) (15 + SAVENAME_MAX + SEED_MAX + 12) 4
        = be32 save.modifiedChunksCount := by
  have hh := writtenMem_head SAVENAME_MAX SEED_MAX save buffer hname hseed
  generalize writtenMem SAVENAME_MAX SEED_MAX save buffer = m at hh
  simp only [fixedHeaderBytes, List.map_append, map_mod_be32, map_mod_be32i, map_mod_magic]
    at hh
  obtain ⟨h7, _⟩ := peek_split_len m 0 _ _ _ hh
  obtain ⟨h6, hcount⟩ := peek_append_split m 0 _ _ h7
  obtain ⟨h5, hsz⟩ := peek_append_split m 0 _ _ h6
  obtain ⟨h4, hsy⟩ := peek_append_split m 0 _ _ h5
  obtain ⟨h3, hsx⟩ := peek_append_split m 0 _ _ h4
  obtain ⟨h2, hsd⟩ := peek_append_split m 0 _ _ h3
  obtain ⟨hmg, hnm⟩ := peek_append_split m 0 _ _ h2
  simp only [List.length_append, List.length_map, magicBytes_length,
    padField_length _ _ hname, padField_length _ _ hseed, be32_length, be32i_length,
    Nat.zero_add] at hmg hnm hsd hsx hsy hsz hcount
  have e8 : 15 + SAVENAME_MAX + SEED_MAX + 4 + 4 = 15 + SAVENAME_MAX + SEED_MAX + 8 := by omega
  have e12 : 15 + SAVENAME_MAX + SEED_MAX + 4 + 4 + 4
      = 15 + SAVENAME_MAX + SEED_MAX + 12 := by omega
  rw [e8] at hsz
  rw [e12] at hcount
  exact ⟨hmg, hnm, hsd, hsx, hsy, hsz, hcount⟩

/-! ## Bytes of the integer codec -/

theorem load_poke_same (m : Mem) (p : Nat) (bs : List Nat) (i : Nat) (hi : i < bs.length) :
    load (poke m p bs) (p + i) = bs.getD i 0 % 256 := by
  rw [load, poke_apply, if_pos (by omega), Nat.add_sub_cancel_left, Nat.mod_mod]

theorem be32_getD (v i : Nat) (hi : i < 4) :
    (be32 v).getD i 0 % 256 = v / 2 ^ (8 * (4 - 1 - i)) % 256 := by
  interval_cases i <;> simp [be32]

theorem be32i_getD (v : Int) (i : Nat) (hi : i < 4) :
    (be32i v).getD i 0 % 256 = (v % 2 ^ 32).toNat / 2 ^ (8 * (4 - 1 - i)) % 256 := by
  interval_cases i <;> simp [be32i] <;> omega

theorem be32i_wrap (l0 l1 l2 l3 : Nat) (h0 : l0 < 256) (h1 : l1 < 256) (h2 : l2 < 256)
    (h3 : l3 < 256) :
    be32i (wrap_int32 (l0 * 2 ^ 24 + l1 * 2 ^ 16 + l2 * 2 ^ 8 + l3)) = [l0, l1, l2, l3] := by
  simp only [be32i, wrap_int32, List.cons.injEq, and_true]
  split <;> refine ⟨?_, ?_, ?_, ?_⟩ <;> omega

theorem be32_fromBe32 (m : Mem) (p : Nat) : be32 (fromBe32 m p) = peek m p 4 := by
  have h0 := load_lt m p
  have h1 := load_lt m (p + 1)
  have h2 := load_lt m (p + 2)
  have h3 := load_lt m (p + 3)
  rw [peek_four]
  simp only [be32, fromBe32, List.cons.injEq, and_true]
  refine ⟨?_, ?_, ?_, ?_⟩ <;> omega

theorem be32i_fromBe32 (m : Mem) (p : Nat) :
    be32i (wrap_int32 (fromBe32 m p)) = peek m p 4 := by
  rw [peek_four, fromBe32]
  exact be32i_wrap _ _ _ _ (load_lt _ _) (load_lt _ _) (load_lt _ _) (load_lt _ _)

theorem peek_one (m : Mem) (p : Nat) : peek m p 1 = [load m p] := by
  simp [peek]

/-! ## The frame of the writer -/

theorem writtenMem_apply (SAVENAME_MAX SEED_MAX : Nat) (save : SaveFile) (buffer : Mem)
    (hname : strlen save.name ≤ SAVENAME_MAX) (hseed : strlen save.seed ≤ SEED_MAX) (a : Nat) :
    writtenMem SAVENAME_MAX SEED_MAX save buffer a
      = if headerSize SAVENAME_MAX SEED_MAX + 16 * save.modifiedChunksCount ≤ a
            ∧ a < calc_save_size SAVENAME_MAX SEED_MAX save then
          (allBlocksBytes save.modifiedChunks).getD
            (a - (headerSize SAVENAME_MAX SEED_MAX + 16 * save.modifiedChunksCount)) 0 % 256
        else if a < headerSize SAVENAME_MAX SEED_MAX + 12 * save.modifiedChunksCount then
          (fixedHeaderBytes SAVENAME_MAX SEED_MAX save
            ++ headersBytes save.modifiedChunks).getD a 0 % 256
        else buffer a := by
  unfold writtenMem
  rw [poke_apply, poke_apply, allBlocksBytes_length, List.length_append,
    fixedHeaderBytes_length _ _ _ hname hseed, headersBytes_length, calc_save_size_eq]
  simp only [SaveFile.modifiedChunksCount, Nat.zero_le, true_and, Nat.zero_add, Nat.sub_zero]

/-! ## The inventory loops -/

theorem add_to_existing_some (type : Int) (inv inv' : List ItemSlot)
    (h : add_to_existing type inv = some inv') :
    ∃ pre t post, inv = pre ++ t :: post
      ∧ inv' = pre ++ { t with count := t.count + 1 } :: post
      ∧ t.type = type ∧ t.count < 99 := by
  induction inv generalizing inv' with
  | nil => simp [add_to_existing] at h
  | cons t rest ih =>
    rw [add_to_existing] at h
    by_cases hc : t.type = type ∧ t.count < 99
    · rw [if_pos hc, Option.some.injEq] at h
      exact ⟨[], t, rest, rfl, h.symm, hc.1, hc.2⟩
    · rw [if_neg hc] at h
      cases hr : add_to_existing type rest with
      | none => rw [hr] at h; simp at h
      | some r =>
        rw [hr, Option.map_some', Option.some.injEq] at h
        obtain ⟨pre, u, post, h1, h2, h3, h4⟩ := ih r hr
        exact ⟨t :: pre, u, post, by rw [h1]; rfl, by rw [← h, h2]; rfl, h3, h4⟩

theorem add_to_existing_none (type : Int) (inv : List ItemSlot)
    (h : add_to_existing type inv = none) :
    ∀ t ∈ inv, ¬ (t.type = type ∧ t.count < 99) := by
  induction inv with
  | nil => intro t ht; simp at ht
  | cons u rest ih =>
    rw [add_to_existing] at h
    by_cases hc : u.type = type ∧ u.count < 99
    · rw [if_pos hc] at h; simp at h
    · rw [if_neg hc] at h
      cases hr : add_to_existing type rest with
      | some r => rw [hr] at h; simp at h
      | none =>
        intro t ht
        rcases List.mem_cons.mp ht with e | e
        · rw [e]; exact hc
        · exact ih hr t e

theorem add_to_empty_some (type : Int) (inv inv' : List ItemSlot)
    (h : add_to_empty type inv = some inv') :
    ∃ pre t post, inv = pre ++ t :: post
      ∧ inv' = pre ++ { type := type, count := 1 } :: post ∧ t.count = 0 := by
  induction inv generalizing inv' with
  | nil => simp [add_to_empty] at h
  | cons t rest ih =>
    rw [add_to_empty] at h
    by_cases hc : t.count = 0
    · rw [if_pos hc, Option.some.injEq] at h
      exact ⟨[], t, rest, rfl, h.symm, hc⟩
    · rw [if_neg hc] at h
      cases hr : add_to_empty type rest with
      | none => rw [hr] at h; simp at h
      | some r =>
        rw [hr, Option.map_some', Option.some.injEq] at h
        obtain ⟨pre, u, post, h1, h2, h3⟩ := ih r hr
        exact ⟨t :: pre, u, post, by rw [h1]; rfl, by rw [← h, h2]; rfl, h3⟩

theorem add_to_empty_none (type : Int) (inv : List ItemSlot)
    (h : add_to_empty type inv = none) : ∀ t ∈ inv, t.count ≠ 0 := by
  induction inv with
  | nil => intro t ht; simp at ht
  | cons u rest ih =>
    rw [add_to_empty] at h
    by_cases hc : u.count = 0
    · rw [if_pos hc] at h; simp at h
    · rw [if_neg hc] at h
      cases hr : add_to_empty type rest with
      | some r => rw [hr] at h; simp at h
      | none =>
        intro t ht
        rcases List.mem_cons.mp ht with e | e
        · rw [e]; exact hc
        · exact ih hr t e

theorem countsInRange_replace (pre post : List ItemSlot) (t t' : ItemSlot)
    (h : CountsInRange (pre ++ t :: post)) (ht : 0 ≤ t'.count ∧ t'.count ≤ 99) :
    CountsInRange (pre ++ t' :: post) := by
  intro u hu
  rcases List.mem_append.mp hu with e | e
  · exact h u (List.mem_append_left _ e)
  · rcases List.mem_cons.mp e with e | e
    · rw [e]; exact ht
    · exact h u (List.mem_append_right _ (List.mem_cons_of_mem _ e))

/-- What one call of `inventory_add_block` does to the array. -/
theorem inventory_add_block_cases (s : InventoryState) (type : Int) :
    (inventory_add_block s type = s
        ∧ (∀ t ∈ s.inventory, ¬ (t.type = type ∧ t.count < 99))
        ∧ (∀ t ∈ s.inventory, t.count ≠ 0))
      ∨ (∃ pre t t' post, s.inventory = pre ++ t :: post
          ∧ (inventory_add_block s type).inventory = pre ++ t' :: post
          ∧ t'.count = t.count + 1 ∧ t.count < 99
          ∧ ((t.type = type ∧ t.count < 99) ∨ t.count = 0)) := by
  unfold inventory_add_block
  cases h1 : add_to_existing type s.inventory with
  | some inv =>
    right
    obtain ⟨pre, t, post, e1, e2, e3, e4⟩ := add_to_existing_some type _ _ h1
    exact ⟨pre, t, _, post, e1, e2, rfl, e4, Or.inl ⟨e3, e4⟩⟩
  | none =>
    cases h2 : add_to_empty type s.inventory with
    | some inv =>
      right
      obtain ⟨pre, t, post, e1, e2, e3⟩ := add_to_empty_some type _ _ h2
      exact ⟨pre, t, _, post, e1, e2, by simp [e3], by rw [e3]; decide, Or.inr e3⟩
    | none =>
      left
      exact ⟨rfl, add_to_existing_none type _ h1, add_to_empty_none type _ h2⟩

/-! # The claims -/

/-- Round trip for texts that fit their staging arrays: when the name is shorter
than `SAVENAME_MAX` bytes and the seed shorter than `SEED_MAX` bytes, every
field holds a value of its C type, the file stays below `2 ^ 32` bytes and the
heap serves the arrays, then for every initial content of the buffer and of the
destination `write_save` on a buffer of `calc_save_size save` bytes completes,
and `read_save` on the result completes and returns the name and seed fields as
the text followed by zero padding (so the same C strings), the same spawn
coordinates, the same chunk count and the same chunks and blocks in order. -/
theorem write_read_round_trip (heap : Heap) (SAVENAME_MAX SEED_MAX : Nat) (save dst : SaveFile)
    (buffer : Mem) (hname : strlen save.name < SAVENAME_MAX)
    (hseed : strlen save.seed < SEED_MAX) (hv : save.WellTyped)
    (hsize : calc_save_size SAVENAME_MAX SEED_MAX save < 2 ^ 32)
    (hheap : HeapServes heap save.modifiedChunksCount save.modifiedChunks) :
    ∃ w, write_save SAVENAME_MAX SEED_MAX save buffer (calc_save_size SAVENAME_MAX SEED_MAX save)
          = some w
      ∧ w.status = Status.completed
      ∧ (read_save heap SAVENAME_MAX SEED_MAX dst w.mem
          (calc_save_size SAVENAME_MAX SEED_MAX save)).status = Status.completed
      ∧ (read_save heap SAVENAME_MAX SEED_MAX dst w.mem
          (calc_save_size SAVENAME_MAX SEED_MAX save)).save
        = { name := cstr save.name ++ List.replicate (SAVENAME_MAX - strlen save.name) 0
              ++ dst.name.drop SAVENAME_MAX
            seed := cstr save.seed ++ List.replicate (SEED_MAX - strlen save.seed) 0
              ++ dst.seed.drop SEED_MAX
            spawnX := save.spawnX
            spawnY := save.spawnY
            spawnZ := save.spawnZ
            modifiedChunks := save.modifiedChunks }
      ∧ cstr (read_save heap SAVENAME_MAX SEED_MAX dst w.mem
          (calc_save_size SAVENAME_MAX SEED_MAX save)).save.name = cstr save.name
      ∧ cstr (read_save heap SAVENAME_MAX SEED_MAX dst w.mem
          (calc_save_size SAVENAME_MAX SEED_MAX save)).save.seed = cstr save.seed
      ∧ (read_save heap SAVENAME_MAX SEED_MAX dst w.mem
          (calc_save_size SAVENAME_MAX SEED_MAX save)).save.modifiedChunksCount
        = save.modifiedChunksCount := by
  refine ⟨_, write_save_eq SAVENAME_MAX SEED_MAX save buffer _ hname hseed, ?_, ?_⟩
  · simp
  · rw [read_written SAVENAME_MAX SEED_MAX save dst buffer _ (le_of_lt hname) (le_of_lt hseed)
      hv]
    refine ⟨?_, rfl, ?_, ?_, rfl⟩
    · have h0 : headerSize SAVENAME_MAX SEED_MAX + 16 * save.modifiedChunksCount
          ≤ calc_save_size SAVENAME_MAX SEED_MAX save := by
        rw [calc_save_size_eq]; omega
      simp only [finalStatus_inRange _ _ _ _ _ _ h0 hsize hheap]
      simp
    · exact cstr_padField_append _ _ _ hname
    · exact cstr_padField_append _ _ _ hseed

/-- The round trip on the two-chunk example with four-byte text fields, a buffer
filled with `170` and an empty destination. -/
theorem write_read_round_trip_witness :
    strlen exampleSave.name < 4 ∧ strlen exampleSave.seed < 4 ∧ exampleSave.WellTyped
      ∧ ∃ w, write_save 4 4 exampleSave (fun _ => 170) (calc_save_size 4 4 exampleSave) = some w
        ∧ (read_save exampleHeap 4 4 emptySave w.mem
            (calc_save_size 4 4 exampleSave)).save.modifiedChunks
          = exampleSave.modifiedChunks := by
  refine ⟨by decide, by decide, by decide, ?_⟩
  obtain ⟨w, h1, _, _, h4, _⟩ := write_read_round_trip exampleHeap 4 4 exampleSave emptySave
    (fun _ => 170) (by decide) (by decide) (by decide) (by decide) (by decide)
  exact ⟨w, h1, by rw [h4]⟩

/-- C2, as stated, fails on its own example: with four-byte text fields the fixed
header ends at 39; after `write_save` the four bytes at `39 + 16` are the second
chunk's `z = 4`, and its `x = -1` is at `39 + 12`. -/
theorem second_chunk_header_is_not_in_a_16_byte_slot :
    headerSize 4 4 = 39
      ∧ (write_save 4 4 exampleSave (fun _ => 0) 75).map
          (fun w => (peek w.mem (headerSize 4 4 + 16) 4, peek w.mem (headerSize 4 4 + 12) 4))
        = some ([0, 0, 0, 4], [255, 255, 255, 255])
      ∧ be32i 4 = [0, 0, 0, 4] ∧ be32i (-1) = [255, 255, 255, 255]
      ∧ (write_save 4 4 exampleSave (fun _ => 0) 75).map
          (fun w => (deserialize_int32_t w.mem (headerSize 4 4 + 16)).1) = some 4 := by
  decide

/-- C2, amended: `write_save` stores chunk `i`'s `x`, `z` (big-endian `int32_t`)
and `modifiedBlocksCount` (big-endian `uint32_t`) at the offsets `H + 12 * i`,
`H + 12 * i + 4` and `H + 12 * i + 8`, where `H` is the end of the fixed header:
the chunk headers are packed twelve bytes apart. -/
theorem write_save_chunk_header_layout (SAVENAME_MAX SEED_MAX : Nat) (save : SaveFile)
    (buffer : Mem) (bufSize : Nat) (hname : strlen save.name < SAVENAME_MAX)
    (hseed : strlen save.seed < SEED_MAX) (i : Nat) (hi : i < save.modifiedChunks.length) :
    ∃ w, write_save SAVENAME_MAX SEED_MAX save buffer bufSize = some w
      ∧ peek w.mem (headerSize SAVENAME_MAX SEED_MAX + 12 * i) 4
        = be32i save.modifiedChunks[i].x
      ∧ peek w.mem (headerSize SAVENAME_MAX SEED_MAX + 12 * i + 4) 4
        = be32i save.modifiedChunks[i].z
      ∧ peek w.mem (headerSize SAVENAME_MAX SEED_MAX + 12 * i + 8) 4
        = be32 save.modifiedChunks[i].modifiedBlocksCount := by
  refine ⟨_, write_save_eq SAVENAME_MAX SEED_MAX save buffer bufSize hname hseed, ?_⟩
  have h := written_chunk_header SAVENAME_MAX SEED_MAX save buffer (le_of_lt hname)
    (le_of_lt hseed) i hi
  have h12 : peek (writtenMem SAVENAME_MAX SEED_MAX save buffer)
      (headerSize SAVENAME_MAX SEED_MAX + 12 * i)
      (be32i save.modifiedChunks[i].x ++ be32i save.modifiedChunks[i].z
        ++ be32 save.modifiedChunks[i].modifiedBlocksCount).length
      = be32i save.modifiedChunks[i].x ++ be32i save.modifiedChunks[i].z
        ++ be32 save.modifiedChunks[i].modifiedBlocksCount := h
  obtain ⟨hxz, hk⟩ := peek_append_split _ _ _ _ h12
  obtain ⟨hx, hz⟩ := peek_append_split _ _ _ _ hxz
  simp only [List.length_append, be32_length, be32i_length] at hx hz hk
  exact ⟨hx, hz, hk⟩

/-- C2, amended, on the example: the second chunk's `x = -1` is at `H + 12`. -/
theorem write_save_chunk_header_layout_witness :
    strlen exampleSave.name < 4 ∧ strlen exampleSave.seed < 4
      ∧ ∃ w, write_save 4 4 exampleSave (fun _ => 0) 75 = some w
        ∧ peek w.mem (headerSize 4 4 + 12 * 1) 4 = be32i (-1) := by
  refine ⟨by decide, by decide, ?_⟩
  obtain ⟨w, h1, h2, _⟩ := write_save_chunk_header_layout 4 4 exampleSave (fun _ => 0) 75
    (by decide) (by decide) 1 (by decide)
  exact ⟨w, h1, h2⟩

/-- C4: when both texts fit their local arrays, `write_save` returns, and the
offset of its cursor `blockData` at that point, which is what the closing
`assert` compares with `bufSize`, is `calc_save_size save`; so the assertion
holds when `bufSize = calc_save_size save`. -/
theorem write_save_consumes_calc_save_size (SAVENAME_MAX SEED_MAX : Nat) (save : SaveFile)
    (buffer : Mem) (bufSize : Nat) (hname : strlen save.name < SAVENAME_MAX)
    (hseed : strlen save.seed < SEED_MAX) :
    ∃ w, write_save SAVENAME_MAX SEED_MAX save buffer bufSize = some w
      ∧ w.blockData = calc_save_size SAVENAME_MAX SEED_MAX save
      ∧ (w.status = Status.completed ↔ bufSize ≥ w.blockData)
      ∧ (bufSize = calc_save_size SAVENAME_MAX SEED_MAX save → w.status = Status.completed) := by
  refine ⟨_, write_save_eq SAVENAME_MAX SEED_MAX save buffer bufSize hname hseed, rfl, ?_, ?_⟩
  · by_cases h : bufSize ≥ calc_save_size SAVENAME_MAX SEED_MAX save <;> simp [h]
  · intro h
    simp [h]

/-- C4 on the example: 75 bytes are consumed and the assertion holds. -/
theorem write_save_consumes_calc_save_size_witness :
    strlen exampleSave.name < 4 ∧ strlen exampleSave.seed < 4
      ∧ ∃ w, write_save 4 4 exampleSave (fun _ => 0) 75 = some w
        ∧ w.blockData = 75 ∧ w.status = Status.completed := by
  refine ⟨by decide, by decide, ?_⟩
  obtain ⟨w, h1, h2, _, h4⟩ := write_save_consumes_calc_save_size 4 4 exampleSave (fun _ => 0)
    75 (by decide) (by decide)
  exact ⟨w, h1, h2, h4 (by decide)⟩

/-- C5: `calc_save_size save` is the length of the signature without its
terminator (15), plus `SAVENAME_MAX + SEED_MAX + 3 * 4 + 4`, plus
`16 + 4 * modifiedBlocksCount` for every chunk; without chunks it is the header
length alone, and with `n` chunks that have no blocks it is the header length
plus `16 * n`. -/
theorem calc_save_size_formula (SAVENAME_MAX SEED_MAX : Nat) (save : SaveFile) :
    calc_save_size SAVENAME_MAX SEED_MAX save
        = strlen fileMagic + SAVENAME_MAX + SEED_MAX + 3 * 4 + 4
          + (save.modifiedChunks.map (fun c => 16 + 4 * c.modifiedBlocksCount)).sum
      ∧ strlen fileMagic = 15 ∧ strlen fileMagic = fileMagic.length - 1
      ∧ (save.modifiedChunks = [] →
          calc_save_size SAVENAME_MAX SEED_MAX save
            = strlen fileMagic + SAVENAME_MAX + SEED_MAX + 3 * 4 + 4)
      ∧ ((∀ c ∈ save.modifiedChunks, c.modifiedBlocksCount = 0) →
          calc_save_size SAVENAME_MAX SEED_MAX save
            = strlen fileMagic + SAVENAME_MAX + SEED_MAX + 3 * 4 + 4
              + 16 * save.modifiedChunksCount) := by
  have hm : strlen fileMagic = 15 := by decide
  have hl : fileMagic.length = 16 := by decide
  have hsum : ∀ cs : List ChunkModification,
      (cs.map (fun c => 16 + 4 * c.modifiedBlocksCount)).sum
        = 16 * cs.length + 4 * totalBlocks cs := by
    intro cs
    induction cs with
    | nil => rfl
    | cons c cs ih =>
      simp only [List.map_cons, List.sum_cons, ih, List.length_cons, totalBlocks]
      omega
  have hzero : ∀ cs : List ChunkModification,
      (∀ c ∈ cs, c.modifiedBlocksCount = 0) → totalBlocks cs = 0 := by
    intro cs
    induction cs with
    | nil => intro _; rfl
    | cons c cs ih =>
      intro h
      rw [totalBlocks, h c (List.mem_cons_self _ _),
        ih (fun c' hc => h c' (List.mem_cons_of_mem _ hc))]
  rw [calc_save_size_eq, hsum, headerSize, hm, hl]
  refine ⟨by simp only [SaveFile.modifiedChunksCount]; omega, rfl, rfl, ?_, ?_⟩
  · intro h
    simp only [SaveFile.modifiedChunksCount, h, totalBlocks, List.length_nil]
  · intro h
    rw [hzero _ h]
    omega

/-- C5 on two concrete saves: no chunks, and three chunks without blocks. -/
theorem calc_save_size_formula_witness :
    calc_save_size 4 4 emptySave = 15 + 4 + 4 + 3 * 4 + 4
      ∧ calc_save_size 4 4 { emptySave with modifiedChunks :=
            [{ x := 0, z := 0, modifiedBlocks := [] }, { x := 1, z := 0, modifiedBlocks := [] },
             { x := 0, z := -1, modifiedBlocks := [] }] }
          = 15 + 4 + 4 + 3 * 4 + 4 + 16 * 3 :=
  ⟨(calc_save_size_formula 4 4 emptySave).2.2.2.1 rfl,
   (calc_save_size_formula 4 4 _).2.2.2.2 (by decide)⟩

/-- C6: when one of the first fifteen bytes of the buffer differs from the
signature (a zero byte among them included), `read_save` ends with the signature
mismatch and leaves every field of the destination as it was. -/
theorem read_save_rejects_foreign_signature (heap : Heap) (SAVENAME_MAX SEED_MAX : Nat) (dst : SaveFile)
    (buffer : Mem) (bufSize : Nat)
    (h : ∃ i, i < strlen fileMagic ∧ load buffer i ≠ fileMagic.getD i 0) :
    read_save heap SAVENAME_MAX SEED_MAX dst buffer bufSize
      = { status := Status.magicMismatch, save := dst, blockData := 0 } := by
  obtain ⟨i, hi, hne⟩ := h
  have hm : strlen fileMagic = 15 := by decide
  rw [hm] at hi
  apply read_save_of_not_magic
  intro e
  apply hne
  have := peek_getD buffer 0 15 i hi
  rw [e, magicBytes_getD i hi, Nat.zero_add] at this
  exact this.symm

/-- C6 on a buffer that has a zero byte at offset 2 and on a destination that
already holds the example save. -/
theorem read_save_rejects_foreign_signature_witness :
    (∃ i, i < strlen fileMagic ∧ load (memOfList [67, 85, 0, 69]) i ≠ fileMagic.getD i 0)
      ∧ (read_save exampleHeap 4 4 exampleSave (memOfList [67, 85, 0, 69]) 4).status = Status.magicMismatch
      ∧ (read_save exampleHeap 4 4 exampleSave (memOfList [67, 85, 0, 69]) 4).save = exampleSave := by
  have h : ∃ i, i < strlen fileMagic ∧ load (memOfList [67, 85, 0, 69]) i ≠ fileMagic.getD i 0 :=
    ⟨2, by decide, by decide⟩
  refine ⟨h, ?_, ?_⟩
  · rw [read_save_rejects_foreign_signature exampleHeap 4 4 exampleSave _ 4 h]
  · rw [read_save_rejects_foreign_signature exampleHeap 4 4 exampleSave _ 4 h]

/-- C7, as stated, fails: on the one-byte buffer `X`, shorter than the header,
`read_save` ends with the signature mismatch, not with the failed assertion; and
its outcome depends on bytes behind the buffer, since two memories that agree on
the one byte of the buffer (`C`) end differently. -/
theorem short_buffer_is_not_always_a_truncation_error :
    1 < headerSize 4 4
      ∧ (read_save exampleHeap 4 4 emptySave (memOfList [88]) 1).status = Status.magicMismatch
      ∧ memOfList exampleFile 0 = memOfList [67] 0
      ∧ (read_save exampleHeap 4 4 emptySave (memOfList exampleFile) 1).status = Status.assertFailed
      ∧ (read_save exampleHeap 4 4 emptySave (memOfList [67]) 1).status = Status.magicMismatch := by
  decide

/-- C7, amended: on a buffer shorter than the fixed header, when the fifteen bytes
at the offsets 0 to 14 are not the signature `read_save` ends with the signature
mismatch and leaves the destination as it was; when they are the signature, the
declared total stays below `2 ^ 32` and the allocations succeed, its closing
assertion fails. When the declared chunk count alone takes the offset of
`blockData` to `2 ^ 32` or beyond, the outcome is not fixed. -/
theorem read_save_short_buffer (heap : Heap) (SAVENAME_MAX SEED_MAX : Nat) (dst : SaveFile)
    (buffer : Mem) (bufSize : Nat) (hshort : bufSize < headerSize SAVENAME_MAX SEED_MAX) :
    (peek buffer 0 15 = magicBytes → InRange heap SAVENAME_MAX SEED_MAX buffer →
        (read_save heap SAVENAME_MAX SEED_MAX dst buffer bufSize).status = Status.assertFailed)
      ∧ (peek buffer 0 15 = magicBytes →
          2 ^ 32 ≤ headerSize SAVENAME_MAX SEED_MAX
            + 16 * declaredChunks SAVENAME_MAX SEED_MAX buffer →
          (read_save heap SAVENAME_MAX SEED_MAX dst buffer bufSize).status
            = Status.undetermined)
      ∧ (peek buffer 0 15 ≠ magicBytes →
          read_save heap SAVENAME_MAX SEED_MAX dst buffer bufSize
            = { status := Status.magicMismatch, save := dst, blockData := 0 }) := by
  refine ⟨?_, ?_, read_save_of_not_magic _ _ _ _ _⟩
  · intro hm hin
    rw [read_save_of_magic _ _ _ _ _ hm, parsed_status_inRange _ _ _ _ _ hin,
      if_neg (by unfold consumedBytes; omega)]
  · intro hm hw
    rw [read_save_of_magic _ _ _ _ _ hm, parsed_status_wrap _ _ _ _ _ hw]

/-- C7, amended, on the first byte of the example file, on the one-byte buffer
`X`, and on the first 23 bytes of a header that declares `0xFFFFFFFF` chunks. -/
theorem read_save_short_buffer_witness :
    1 < headerSize 4 4 ∧ 23 < headerSize 4 4
      ∧ InRange exampleHeap 4 4 (memOfList exampleFile)
      ∧ (read_save exampleHeap 4 4 emptySave (memOfList exampleFile) 1).status
        = Status.assertFailed
      ∧ (read_save exampleHeap 4 4 emptySave (memOfList [88]) 1).status = Status.magicMismatch
      ∧ (read_save exampleHeap 4 4 emptySave (memOfList hugeCountFile) 23).status
        = Status.undetermined := by
  refine ⟨by decide, by decide, by decide, ?_, ?_, ?_⟩
  · exact (read_save_short_buffer exampleHeap 4 4 emptySave (memOfList exampleFile) 1
      (by decide)).1 (by decide) (by decide)
  · rw [(read_save_short_buffer exampleHeap 4 4 emptySave (memOfList [88]) 1
      (by decide)).2.2 (by decide)]
  · exact (read_save_short_buffer exampleHeap 4 4 emptySave (memOfList hugeCountFile) 23
      (by decide)).2.1 (by decide) (by decide)

/-- C8, as stated, fails: the example needs 75 bytes, and with `bufSize = 76`
`write_save` completes normally. -/
theorem larger_buffer_is_accepted :
    calc_save_size 4 4 exampleSave = 75
      ∧ (write_save 4 4 exampleSave (fun _ => 0) 76).map (fun w => w.status)
        = some Status.completed := by
  decide

/-- C8, amended: the closing assertion of `write_save` fails exactly when
`bufSize < calc_save_size save`; for every `bufSize ≥ calc_save_size save`, so
also for a larger buffer, `write_save` completes normally. -/
theorem write_save_size_check (SAVENAME_MAX SEED_MAX : Nat) (save : SaveFile)
    (buffer : Mem) (bufSize : Nat) (hname : strlen save.name < SAVENAME_MAX)
    (hseed : strlen save.seed < SEED_MAX) :
    ∃ w, write_save SAVENAME_MAX SEED_MAX save buffer bufSize = some w
      ∧ (w.status = Status.assertFailed ↔ bufSize < calc_save_size SAVENAME_MAX SEED_MAX save)
      ∧ (w.status = Status.completed ↔ calc_save_size SAVENAME_MAX SEED_MAX save ≤ bufSize) := by
  refine ⟨_, write_save_eq SAVENAME_MAX SEED_MAX save buffer bufSize hname hseed, ?_, ?_⟩
  · by_cases h : bufSize ≥ calc_save_size SAVENAME_MAX SEED_MAX save
    · simp only [h, if_true]
      exact ⟨fun e => (by cases e), fun e => absurd h (by omega)⟩
    · simp only [h, if_false, true_iff]
      omega
  · by_cases h : bufSize ≥ calc_save_size SAVENAME_MAX SEED_MAX save
    · simp only [h, if_true, true_iff]
    · simp only [h, if_false]
      exact ⟨fun e => (by cases e), fun e => e.elim⟩

/-- C8, amended, on the example: one byte too few fails, one byte too many
completes. -/
theorem write_save_size_check_witness :
    strlen exampleSave.name < 4 ∧ strlen exampleSave.seed < 4
      ∧ (∃ w, write_save 4 4 exampleSave (fun _ => 0) 74 = some w
          ∧ w.status = Status.assertFailed)
      ∧ (∃ w, write_save 4 4 exampleSave (fun _ => 0) 76 = some w
          ∧ w.status = Status.completed) := by
  refine ⟨by decide, by decide, ?_, ?_⟩
  · obtain ⟨w, h1, h2, _⟩ := write_save_size_check 4 4 exampleSave (fun _ => 0) 74
      (by decide) (by decide)
    exact ⟨w, h1, h2.mpr (by decide)⟩
  · obtain ⟨w, h1, _, h3⟩ := write_save_size_check 4 4 exampleSave (fun _ => 0) 76
      (by decide) (by decide)
    exact ⟨w, h1, h3.mpr (by decide)⟩

/-- C9, as stated, fails: the 39-byte header that declares `0xFFFFFFFF` chunks
starts with the signature and its declared total exceeds `bufSize = 39`, yet
`read_save` does not end with the failed assertion: the offset
`ptr + count * CHUNK_MOD_SIZE` is beyond `2 ^ 32`, where the arithmetic of the
32-bit target wraps, and the outcome is not fixed. -/
theorem huge_chunk_count_is_not_a_truncation_error :
    peek (memOfList hugeCountFile) 0 15 = magicBytes
      ∧ declaredChunks 4 4 (memOfList hugeCountFile) = 4294967295
      ∧ 39 < headerSize 4 4 + 16 * declaredChunks 4 4 (memOfList hugeCountFile)
      ∧ (read_save exampleHeap 4 4 emptySave (memOfList hugeCountFile) 39).status
        = Status.undetermined
      ∧ (read_save exampleHeap 4 4 emptySave (memOfList hugeCountFile) 39).status
        ≠ Status.assertFailed := by
  decide

/-- C9, amended: on a buffer that starts with the signature and declares `n`
chunks with block counts `k_0 .. k_(n-1)`, such that the total
`H + 16 * n + 4 * (k_0 + .. + k_(n-1))` is below `2 ^ 32` and the allocations
succeed, `read_save` returns `n` chunks with these block counts, its cursor
`blockData` ends at that total, and it completes exactly when the total does
not exceed `bufSize`; otherwise its closing assertion fails. So what is
accepted with `bufSize` is accepted with any larger `bufSize`, and a written
save followed by extra bytes is accepted. -/
theorem read_save_final_check (heap : Heap) (SAVENAME_MAX SEED_MAX : Nat) (dst : SaveFile)
    (buffer : Mem) (bufSize : Nat) (hmagic : peek buffer 0 15 = magicBytes)
    (hin : InRange heap SAVENAME_MAX SEED_MAX buffer) :
    (read_save heap SAVENAME_MAX SEED_MAX dst buffer bufSize).save.modifiedChunksCount
        = declaredChunks SAVENAME_MAX SEED_MAX buffer
      ∧ (read_save heap SAVENAME_MAX SEED_MAX dst buffer bufSize).save.modifiedChunks.map
          (fun c => c.modifiedBlocksCount) = declaredBlockCounts SAVENAME_MAX SEED_MAX buffer
      ∧ (read_save heap SAVENAME_MAX SEED_MAX dst buffer bufSize).blockData
        = headerSize SAVENAME_MAX SEED_MAX + 16 * declaredChunks SAVENAME_MAX SEED_MAX buffer
          + 4 * (declaredBlockCounts SAVENAME_MAX SEED_MAX buffer).sum
      ∧ ((read_save heap SAVENAME_MAX SEED_MAX dst buffer bufSize).status = Status.completed ↔
          headerSize SAVENAME_MAX SEED_MAX + 16 * declaredChunks SAVENAME_MAX SEED_MAX buffer
            + 4 * (declaredBlockCounts SAVENAME_MAX SEED_MAX buffer).sum ≤ bufSize)
      ∧ ((read_save heap SAVENAME_MAX SEED_MAX dst buffer bufSize).status
            = Status.assertFailed ↔
          bufSize < headerSize SAVENAME_MAX SEED_MAX
            + 16 * declaredChunks SAVENAME_MAX SEED_MAX buffer
            + 4 * (declaredBlockCounts SAVENAME_MAX SEED_MAX buffer).sum)
      ∧ (∀ extra,
          (read_save heap SAVENAME_MAX SEED_MAX dst buffer bufSize).status = Status.completed →
          (read_save heap SAVENAME_MAX SEED_MAX dst buffer (bufSize + extra)).status
            = Status.completed)
      ∧ (∀ (save : SaveFile) (b : Mem) (extra : Nat), strlen save.name < SAVENAME_MAX →
          strlen save.seed < SEED_MAX → save.WellTyped →
          calc_save_size SAVENAME_MAX SEED_MAX save < 2 ^ 32 →
          HeapServes heap save.modifiedChunksCount save.modifiedChunks →
          ∃ w, write_save SAVENAME_MAX SEED_MAX save b
                (calc_save_size SAVENAME_MAX SEED_MAX save) = some w
            ∧ (read_save heap SAVENAME_MAX SEED_MAX dst w.mem
                (calc_save_size SAVENAME_MAX SEED_MAX save + extra)).status
              = Status.completed) := by
  have hst : ∀ size, (read_save heap SAVENAME_MAX SEED_MAX dst buffer size).status
      = if size ≥ headerSize SAVENAME_MAX SEED_MAX
            + 16 * declaredChunks SAVENAME_MAX SEED_MAX buffer
            + 4 * (declaredBlockCounts SAVENAME_MAX SEED_MAX buffer).sum
        then Status.completed else Status.assertFailed := by
    intro size
    rw [read_save_of_magic _ _ _ _ _ hmagic, parsed_status_inRange _ _ _ _ _ hin]
    rfl
  refine ⟨?_, ?_, ?_, ?_, ?_, ?_, ?_⟩
  · rw [read_save_of_magic _ _ _ _ _ hmagic]
    simp only [parsed, SaveFile.modifiedChunksCount, read_chunks_length, declaredChunks,
      headerSize_sub_four, deserialize_uint32_t_eq]
  · rw [read_save_of_magic _ _ _ _ _ hmagic]
    exact parsed_counts _ _ _ _ _
  · rw [read_save_of_magic _ _ _ _ _ hmagic, parsed_blockData]
  · rw [hst]
    split
    · simp only [true_iff]; omega
    · exact ⟨fun e => (by cases e), fun e => (by omega)⟩
  · rw [hst]
    split
    · exact ⟨fun e => (by cases e), fun e => (by omega)⟩
    · simp only [true_iff]; omega
  · intro extra
    rw [hst, hst]
    split
    · intro _
      rw [if_pos (by omega)]
    · intro e; cases e
  · intro save b extra hname hseed hv hsize hheap
    refine ⟨_, write_save_eq SAVENAME_MAX SEED_MAX save b _ hname hseed, ?_⟩
    rw [read_written SAVENAME_MAX SEED_MAX save dst b _ (le_of_lt hname) (le_of_lt hseed) hv]
    have h0 : headerSize SAVENAME_MAX SEED_MAX + 16 * save.modifiedChunksCount
        ≤ calc_save_size SAVENAME_MAX SEED_MAX save := by
      rw [calc_save_size_eq]; omega
    simp only [finalStatus_inRange _ _ _ _ _ _ h0 hsize hheap]
    simp

/-- C9, amended, on the example file: accepted with its 75 bytes and with three
more, rejected with one byte less. -/
theorem read_save_final_check_witness :
    peek (memOfList exampleFile) 0 15 = magicBytes
      ∧ InRange exampleHeap 4 4 (memOfList exampleFile)
      ∧ (read_save exampleHeap 4 4 emptySave (memOfList exampleFile) 75).status
        = Status.completed
      ∧ (read_save exampleHeap 4 4 emptySave (memOfList exampleFile) 78).status
        = Status.completed
      ∧ (read_save exampleHeap 4 4 emptySave (memOfList exampleFile) 74).status
        = Status.assertFailed := by
  refine ⟨by decide, by decide, ?_, ?_, ?_⟩
  · exact (read_save_final_check exampleHeap 4 4 emptySave (memOfList exampleFile) 75
      (by decide) (by decide)).2.2.2.1.mpr (by decide)
  · exact (read_save_final_check exampleHeap 4 4 emptySave (memOfList exampleFile) 78
      (by decide) (by decide)).2.2.2.1.mpr (by decide)
  · exact (read_save_final_check exampleHeap 4 4 emptySave (memOfList exampleFile) 74
      (by decide) (by decide)).2.2.2.2.1.mpr (by decide)

/-- C10: `write_save` stores block `j` of chunk `i` as the four bytes `x`, `y`,
`z`, `type` at the offset `H + 16 * n + 4 * (k_0 + .. + k_(i-1) + j)`, and on a
buffer that starts with the signature `read_save` takes block `j` of chunk `i`
from that same offset (with `n` and the `k` of the chunks it returns). -/
theorem block_record_layout (heap : Heap) (SAVENAME_MAX SEED_MAX : Nat) :
    (∀ (save : SaveFile) (buffer : Mem) (bufSize i j : Nat)
        (_ : strlen save.name < SAVENAME_MAX) (_ : strlen save.seed < SEED_MAX)
        (hi : i < save.modifiedChunks.length)
        (hj : j < save.modifiedChunks[i].modifiedBlocks.length),
        ∃ w, write_save SAVENAME_MAX SEED_MAX save buffer bufSize = some w
          ∧ peek w.mem (headerSize SAVENAME_MAX SEED_MAX + 16 * save.modifiedChunksCount
              + 4 * (((save.modifiedChunks.take i).map (fun c => c.modifiedBlocksCount)).sum + j))
              4
            = [save.modifiedChunks[i].modifiedBlocks[j].x % 256,
               save.modifiedChunks[i].modifiedBlocks[j].y % 256,
               save.modifiedChunks[i].modifiedBlocks[j].z % 256,
               save.modifiedChunks[i].modifiedBlocks[j].type % 256])
      ∧ (∀ (dst : SaveFile) (buffer : Mem) (bufSize i j : Nat) (c : ChunkModification)
          (b : BlockModification), peek buffer 0 15 = magicBytes →
          (read_save heap SAVENAME_MAX SEED_MAX dst buffer bufSize).save.modifiedChunks[i]? = some c →
          c.modifiedBlocks[j]? = some b →
          [b.x, b.y, b.z, b.type]
            = peek buffer (headerSize SAVENAME_MAX SEED_MAX
                + 16 * (read_save heap SAVENAME_MAX SEED_MAX dst buffer bufSize).save.modifiedChunksCount
                + 4 * ((((read_save heap SAVENAME_MAX SEED_MAX dst buffer
                      bufSize).save.modifiedChunks.take i).map
                    (fun c => c.modifiedBlocksCount)).sum + j)) 4) := by
  constructor
  · intro save buffer bufSize i j hname hseed hi hj
    refine ⟨_, write_save_eq SAVENAME_MAX SEED_MAX save buffer bufSize hname hseed, ?_⟩
    rw [← totalBlocks_eq_sum]
    exact written_block SAVENAME_MAX SEED_MAX save buffer i hi j hj
  · intro dst buffer bufSize i j c b hmagic hc hb
    rw [read_save_of_magic _ _ _ _ _ hmagic] at hc ⊢
    simp only [parsed, SaveFile.modifiedChunksCount, read_chunks_length] at hc ⊢
    have hi : i < fromBe32 buffer (15 + SAVENAME_MAX + SEED_MAX + 12) := by
      have := (List.getElem?_eq_some.mp hc).1
      rwa [read_chunks_length] at this
    rw [read_chunks_get _ _ _ _ _ hi, Option.some.injEq] at hc
    subst hc
    have hj : j < fromBe32 buffer (headerSize SAVENAME_MAX SEED_MAX + 12 * i + 8) := by
      have := (List.getElem?_eq_some.mp hb).1
      rwa [read_blocks_length] at this
    rw [read_blocks_get _ _ _ _ hj, Option.some.injEq] at hb
    subst hb
    rw [← totalBlocks_eq_sum, peek_four]
    simp only [List.cons.injEq, and_true]
    refine ⟨?_, ?_, ?_, ?_⟩ <;> congr 1 <;> omega

/-- C10 on the example: the block `(1,2,3,5)` of the first chunk is written to,
and read from, the offset `H + 16 * 2`. -/
theorem block_record_layout_witness :
    (∃ w, write_save 4 4 exampleSave (fun _ => 0) 75 = some w
        ∧ peek w.mem (headerSize 4 4 + 16 * 2 + 4 * (0 + 0)) 4 = [1, 2, 3, 5])
      ∧ [1, 2, 3, 5] = peek (memOfList exampleFile) (headerSize 4 4 + 16 * 2 + 4 * (0 + 0)) 4 := by
  constructor
  · obtain ⟨w, h1, h2⟩ := (block_record_layout exampleHeap 4 4).1 exampleSave (fun _ => 0) 75 0 0
      (by decide) (by decide) (by decide) (by decide)
    exact ⟨w, h1, h2⟩
  · exact (block_record_layout exampleHeap 4 4).2 emptySave (memOfList exampleFile) 75 0 0
      { x := 0, z := 0, modifiedBlocks := [{ x := 1, y := 2, z := 3, type := 5 }] }
      { x := 1, y := 2, z := 3, type := 5 } (by decide) (by decide) (by decide)

/-- C11: the buffer produced by `write_save` holds, one after the other from
offset 0 and without gaps, the fifteen signature bytes `CUBECRAFTvALPHA` (no
terminator: offset 15 is the first byte of the name field), the name field of
`SAVENAME_MAX` bytes, the seed field of `SEED_MAX` bytes, `spawnX`, `spawnY`,
`spawnZ` as four big-endian two's-complement bytes each, and the chunk count as
four big-endian bytes; together they end at the header size. -/
theorem write_save_fixed_header_layout (SAVENAME_MAX SEED_MAX : Nat) (save : SaveFile)
    (buffer : Mem) (bufSize : Nat) (hname : strlen save.name < SAVENAME_MAX)
    (hseed : strlen save.seed < SEED_MAX) :
    ∃ w, write_save SAVENAME_MAX SEED_MAX save buffer bufSize = some w
      ∧ peek w.mem 0 15 = [67, 85, 66, 69, 67, 82, 65, 70, 84, 118, 65, 76, 80, 72, 65]
      ∧ peek w.mem 15 SAVENAME_MAX = (padField SAVENAME_MAX save.name).map (fun b => b % 256)
      ∧ peek w.mem (15 + SAVENAME_MAX) SEED_MAX
        = (padField SEED_MAX save.seed).map (fun b => b % 256)
      ∧ peek w.mem (15 + SAVENAME_MAX + SEED_MAX) 4 = be32i save.spawnX
      ∧ peek w.mem (15 + SAVENAME_MAX + SEED_MAX + 4) 4 = be32i save.spawnY
      ∧ peek w.mem (15 + SAVENAME_MAX + SEED_MAX + 8) 4 = be32i save.spawnZ
      ∧ peek w.mem (15 + SAVENAME_MAX + SEED_MAX + 12) 4 = be32 save.modifiedChunksCount
      ∧ headerSize SAVENAME_MAX SEED_MAX = 15 + SAVENAME_MAX + SEED_MAX + 12 + 4
      ∧ "CUBECRAFTvALPHA".toList.map Char.toNat
        = [67, 85, 66, 69, 67, 82, 65, 70, 84, 118, 65, 76, 80, 72, 65] := by
  refine ⟨_, write_save_eq SAVENAME_MAX SEED_MAX save buffer bufSize hname hseed, ?_⟩
  obtain ⟨h1, h2, h3, h4, h5, h6, h7⟩ := written_fixed_fields SAVENAME_MAX SEED_MAX save buffer
    (le_of_lt hname) (le_of_lt hseed)
  have hm : magicBytes = [67, 85, 66, 69, 67, 82, 65, 70, 84, 118, 65, 76, 80, 72, 65] := by
    decide
  have hH : headerSize SAVENAME_MAX SEED_MAX = 15 + SAVENAME_MAX + SEED_MAX + 12 + 4 := by
    have : fileMagic.length = 16 := by decide
    simp only [headerSize, this]
  exact ⟨hm ▸ h1, h2, h3, h4, h5, h6, h7, hH, by decide⟩

/-- C11 on the example with four-byte text fields: the spawn point `(8, 64, -8)`
and the chunk count 2 follow the 23 bytes of signature, name and seed. -/
theorem write_save_fixed_header_layout_witness :
    strlen exampleSave.name < 4 ∧ strlen exampleSave.seed < 4
      ∧ ∃ w, write_save 4 4 exampleSave (fun _ => 170) 75 = some w
        ∧ peek w.mem 0 39
          = [67, 85, 66, 69, 67, 82, 65, 70, 84, 118, 65, 76, 80, 72, 65,
             119, 49, 0, 0, 55, 0, 0, 0,
             0, 0, 0, 8, 0, 0, 0, 64, 255, 255, 255, 248, 0, 0, 0, 2] := by
  refine ⟨by decide, by decide, ?_⟩
  obtain ⟨w, h0, h1, h2, h3, h4, h5, h6, h7, _⟩ := write_save_fixed_header_layout 4 4
    exampleSave (fun _ => 170) 75 (by decide) (by decide)
  refine ⟨w, h0, ?_⟩
  have e : peek w.mem 0 39 = peek w.mem 0 15 ++ (peek w.mem 15 4 ++ (peek w.mem (15 + 4) 4
      ++ (peek w.mem (15 + 4 + 4) 4 ++ (peek w.mem (15 + 4 + 4 + 4) 4
      ++ (peek w.mem (15 + 4 + 4 + 8) 4 ++ peek w.mem (15 + 4 + 4 + 12) 4))))) := by
    rw [← peek_add, ← peek_add, ← peek_add, ← peek_add, ← peek_add, ← peek_add]
  rw [e, h1, h2, h3, h4, h5, h6, h7]
  decide

/-- C12: each `serialize` function writes exactly the `w` bytes at the cursor
(`w` is 4, 4, 1 for `uint32_t`, `int32_t`, `uint8_t`), byte `i` being
`(v div 2^(8*(w-1-i))) mod 256` of the two's-complement representation of `v`,
leaves every other byte as it was and advances the cursor by `w`; each
`deserialize` function advances its cursor by `w` as well. -/
theorem serialize_big_endian (c : Cursor) (m : Mem) (p : Nat) :
    (∀ v : Nat,
        (serialize_uint32_t c v).pos = c.pos + 4
          ∧ (∀ i, i < 4 →
              load (serialize_uint32_t c v).mem (c.pos + i) = v / 2 ^ (8 * (4 - 1 - i)) % 256)
          ∧ (∀ a, a < c.pos ∨ c.pos + 4 ≤ a → (serialize_uint32_t c v).mem a = c.mem a))
      ∧ (∀ v : Int,
        (serialize_int32_t c v).pos = c.pos + 4
          ∧ (∀ i, i < 4 →
              load (serialize_int32_t c v).mem (c.pos + i)
                = (v % 2 ^ 32).toNat / 2 ^ (8 * (4 - 1 - i)) % 256)
          ∧ (∀ a, a < c.pos ∨ c.pos + 4 ≤ a → (serialize_int32_t c v).mem a = c.mem a))
      ∧ (∀ v : Nat,
        (serialize_uint8_t c v).pos = c.pos + 1
          ∧ (∀ i, i < 1 →
              load (serialize_uint8_t c v).mem (c.pos + i) = v / 2 ^ (8 * (1 - 1 - i)) % 256)
          ∧ (∀ a, a < c.pos ∨ c.pos + 1 ≤ a → (serialize_uint8_t c v).mem a = c.mem a))
      ∧ (deserialize_uint32_t m p).2 = p + 4
      ∧ (deserialize_int32_t m p).2 = p + 4
      ∧ (deserialize_uint8_t m p).2 = p + 1 := by
  refine ⟨?_, ?_, ?_, ?_, ?_, ?_⟩
  · intro v
    rw [serialize_uint32_t_eq]
    refine ⟨rfl, ?_, ?_⟩
    · intro i hi
      rw [load_poke_same _ _ _ _ (by rw [be32_length]; exact hi), be32_getD v i hi]
    · intro a ha
      exact poke_outside _ _ _ _ (by rw [be32_length]; exact ha)
  · intro v
    rw [serialize_int32_t_eq]
    refine ⟨rfl, ?_, ?_⟩
    · intro i hi
      rw [load_poke_same _ _ _ _ (by rw [be32i_length]; exact hi), be32i_getD v i hi]
    · intro a ha
      exact poke_outside _ _ _ _ (by rw [be32i_length]; exact ha)
  · intro v
    rw [serialize_uint8_t_eq]
    refine ⟨rfl, ?_, ?_⟩
    · intro i hi
      have hi0 : i = 0 := by omega
      subst hi0
      rw [load_poke_same _ _ _ _ (by simp)]
      simp
    · intro a ha
      exact poke_outside _ _ _ _ (by simpa using ha)
  · rw [deserialize_uint32_t_eq]
  · rw [deserialize_int32_t_eq]
  · rw [deserialize_uint8_t_eq]

/-- C12 on `-2` as `int32_t`: its least significant byte, written last, is
`254`, and the byte before the cursor is untouched. -/
theorem serialize_big_endian_witness :
    load (serialize_int32_t { mem := fun _ => 170, pos := 5 } (-2)).mem (5 + 3)
        = ((-2 : Int) % 2 ^ 32).toNat / 2 ^ (8 * (4 - 1 - 3)) % 256
      ∧ ((-2 : Int) % 2 ^ 32).toNat / 2 ^ (8 * (4 - 1 - 3)) % 256 = 254
      ∧ (serialize_int32_t { mem := fun _ => 170, pos := 5 } (-2)).mem 4 = 170 :=
  ⟨((serialize_big_endian { mem := fun _ => 170, pos := 5 } (fun _ => 0) 0).2.1 (-2)).2.1 3
      (by decide),
   by decide,
   ((serialize_big_endian { mem := fun _ => 170, pos := 5 } (fun _ => 0) 0).2.1 (-2)).2.2 4
      (Or.inl (by decide))⟩

/-- C13: `deserialize` applied to the bytes `serialize` wrote returns the value,
for every `int32_t` (negative values and `INT32_MIN` included), every
`uint32_t` (values from `2^31` on included) and every `uint8_t` value; and
serializing the value deserialized from any four bytes (one byte for
`uint8_t`) writes those same bytes. -/
theorem integer_codec_round_trip (c : Cursor) (m : Mem) (p : Nat) :
    (∀ v : Int, IsInt32 v →
        deserialize_int32_t (serialize_int32_t c v).mem c.pos = (v, c.pos + 4))
      ∧ (∀ v : Nat, v < 2 ^ 32 →
        deserialize_uint32_t (serialize_uint32_t c v).mem c.pos = (v, c.pos + 4))
      ∧ (∀ v : Nat, v < 2 ^ 8 →
        deserialize_uint8_t (serialize_uint8_t c v).mem c.pos = (v, c.pos + 1))
      ∧ peek (serialize_int32_t c (deserialize_int32_t m p).1).mem c.pos 4 = peek m p 4
      ∧ peek (serialize_uint32_t c (deserialize_uint32_t m p).1).mem c.pos 4 = peek m p 4
      ∧ peek (serialize_uint8_t c (deserialize_uint8_t m p).1).mem c.pos 1 = peek m p 1 := by
  refine ⟨?_, ?_, ?_, ?_, ?_, ?_⟩
  · intro v hv
    have h := peek_poke_same c.mem c.pos (be32i v)
    rw [map_mod_be32i, be32i_length] at h
    rw [serialize_int32_t_eq, deserialize_int32_t_eq, fromBe32_of_peek_int _ _ v hv h]
  · intro v hv
    have h := peek_poke_same c.mem c.pos (be32 v)
    rw [map_mod_be32, be32_length] at h
    rw [serialize_uint32_t_eq, deserialize_uint32_t_eq, fromBe32_of_peek _ _ v hv h]
  · intro v hv
    rw [serialize_uint8_t_eq, deserialize_uint8_t_eq]
    have h := load_poke_same c.mem c.pos [v] 0 (by simp)
    rw [Nat.add_zero] at h
    rw [h]
    simp only [List.getD_cons_zero, Prod.mk.injEq, and_true]
    omega
  · have h := peek_poke_same c.mem c.pos (be32i (wrap_int32 (fromBe32 m p)))
    rw [map_mod_be32i, be32i_length] at h
    rw [deserialize_int32_t_eq, serialize_int32_t_eq, h, be32i_fromBe32]
  · have h := peek_poke_same c.mem c.pos (be32 (fromBe32 m p))
    rw [map_mod_be32, be32_length] at h
    rw [deserialize_uint32_t_eq, serialize_uint32_t_eq, h, be32_fromBe32]
  · have h := peek_poke_same c.mem c.pos [load m p]
    rw [deserialize_uint8_t_eq, serialize_uint8_t_eq]
    simp only [List.length_singleton, List.map_cons, List.map_nil] at h
    rw [h, peek_one, Nat.mod_eq_of_lt (load_lt m p)]

/-- C13 on `INT32_MIN`, on `2^31` as `uint32_t` and on `255` as `uint8_t`. -/
theorem integer_codec_round_trip_witness :
    IsInt32 (-2 ^ 31) ∧ (2 ^ 31 : Nat) < 2 ^ 32 ∧ (255 : Nat) < 2 ^ 8
      ∧ deserialize_int32_t (serialize_int32_t { mem := fun _ => 170, pos := 5 }
          (-2 ^ 31)).mem 5 = (-2 ^ 31, 5 + 4)
      ∧ deserialize_uint32_t (serialize_uint32_t { mem := fun _ => 170, pos := 5 }
          (2 ^ 31)).mem 5 = (2 ^ 31, 5 + 4)
      ∧ deserialize_uint8_t (serialize_uint8_t { mem := fun _ => 170, pos := 5 } 255).mem 5
          = (255, 5 + 1) :=
  ⟨by decide, by decide, by decide,
   (integer_codec_round_trip { mem := fun _ => 170, pos := 5 } (fun _ => 0) 0).1 (-2 ^ 31)
     (by decide),
   (integer_codec_round_trip { mem := fun _ => 170, pos := 5 } (fun _ => 0) 0).2.1 (2 ^ 31)
     (by decide),
   (integer_codec_round_trip { mem := fun _ => 170, pos := 5 } (fun _ => 0) 0).2.2.1 255
     (by decide)⟩

/-- Text fields of texts that fit their staging arrays: when the name is shorter
than `SAVENAME_MAX` bytes and the seed shorter than `SEED_MAX` bytes, the name
field written by `write_save` is exactly `SAVENAME_MAX` bytes, the bytes of the
name followed by zero bytes, and the seed field is exactly `SEED_MAX` bytes, the
bytes of the seed followed by zero bytes; `read_save` puts these fields into the
destination byte for byte, padding included. -/
theorem write_save_text_fields {heap : Heap} (SAVENAME_MAX SEED_MAX : Nat) (save dst : SaveFile)
    (buffer : Mem) (bufSize : Nat) (hname : strlen save.name < SAVENAME_MAX)
    (hseed : strlen save.seed < SEED_MAX) (hn : AllBytes save.name) (hs : AllBytes save.seed) :
    ∃ w, write_save SAVENAME_MAX SEED_MAX save buffer bufSize = some w
      ∧ peek w.mem 15 SAVENAME_MAX
        = cstr save.name ++ List.replicate (SAVENAME_MAX - strlen save.name) 0
      ∧ (cstr save.name ++ List.replicate (SAVENAME_MAX - strlen save.name) 0).length
        = SAVENAME_MAX
      ∧ peek w.mem (15 + SAVENAME_MAX) SEED_MAX
        = cstr save.seed ++ List.replicate (SEED_MAX - strlen save.seed) 0
      ∧ (cstr save.seed ++ List.replicate (SEED_MAX - strlen save.seed) 0).length = SEED_MAX
      ∧ (read_save heap SAVENAME_MAX SEED_MAX dst w.mem bufSize).save.name
        = peek w.mem 15 SAVENAME_MAX ++ dst.name.drop SAVENAME_MAX
      ∧ (read_save heap SAVENAME_MAX SEED_MAX dst w.mem bufSize).save.seed
        = peek w.mem (15 + SAVENAME_MAX) SEED_MAX ++ dst.seed.drop SEED_MAX := by
  refine ⟨_, write_save_eq SAVENAME_MAX SEED_MAX save buffer bufSize hname hseed, ?_⟩
  obtain ⟨h1, h2, h3, _⟩ := written_fixed_fields SAVENAME_MAX SEED_MAX save buffer
    (le_of_lt hname) (le_of_lt hseed)
  rw [map_mod_of_allBytes _ (allBytes_padField _ _ hn)] at h2
  rw [map_mod_of_allBytes _ (allBytes_padField _ _ hs)] at h3
  refine ⟨h2, padField_length _ _ (le_of_lt hname), h3, padField_length _ _ (le_of_lt hseed),
    ?_, ?_⟩
  · rw [read_save_of_magic _ _ _ _ _ h1]
    rfl
  · rw [read_save_of_magic _ _ _ _ _ h1]
    rfl

/-- The text fields of the example with four-byte fields: the name `w1` is stored
and read back as `w1` and two zero bytes. -/
theorem write_save_text_fields_witness :
    strlen exampleSave.name < 4 ∧ strlen exampleSave.seed < 4
      ∧ AllBytes exampleSave.name ∧ AllBytes exampleSave.seed
      ∧ ∃ w, write_save 4 4 exampleSave (fun _ => 170) 75 = some w
        ∧ peek w.mem 15 4 = [119, 49, 0, 0]
        ∧ (read_save exampleHeap 4 4 emptySave w.mem 75).save.name = [119, 49, 0, 0] := by
  refine ⟨by decide, by decide, by decide, by decide, ?_⟩
  obtain ⟨w, h0, h1, _, _, _, h5, _⟩ := write_save_text_fields 4 4 exampleSave emptySave
    (fun _ => 170) 75 (by decide) (by decide) (by decide) (by decide)
  have e : cstr exampleSave.name ++ List.replicate (4 - strlen exampleSave.name) 0
      = [119, 49, 0, 0] := by decide
  rw [e] at h1
  refine ⟨w, h0, h1, ?_⟩
  rw [h5, h1]
  rfl

/-- C15: `write_save` leaves every byte from offset `calc_save_size save` on as
it was; below that offset it leaves exactly the `4 * n` bytes from `H + 12 * n`
up to `H + 16 * n`, which lie in the chunk-header region, as they were, and
gives every other byte a value that does not depend on the previous content of
the buffer. So two runs on the same save agree on all of the first
`calc_save_size save` bytes whenever the two buffers agree on those `4 * n`
bytes. -/
theorem write_save_frame (SAVENAME_MAX SEED_MAX : Nat) (save : SaveFile) (b1 b2 : Mem)
    (bufSize : Nat) (hname : strlen save.name < SAVENAME_MAX)
    (hseed : strlen save.seed < SEED_MAX) :
    ∃ w1 w2, write_save SAVENAME_MAX SEED_MAX save b1 bufSize = some w1
      ∧ write_save SAVENAME_MAX SEED_MAX save b2 bufSize = some w2
      ∧ (calc_save_size SAVENAME_MAX SEED_MAX save ≤ bufSize → w1.status = Status.completed)
      ∧ (∀ a, calc_save_size SAVENAME_MAX SEED_MAX save ≤ a → w1.mem a = b1 a)
      ∧ (∀ a, headerSize SAVENAME_MAX SEED_MAX + 12 * save.modifiedChunksCount ≤ a →
          a < headerSize SAVENAME_MAX SEED_MAX + 16 * save.modifiedChunksCount →
          w1.mem a = b1 a)
      ∧ (∀ a, a < calc_save_size SAVENAME_MAX SEED_MAX save →
          ¬ (headerSize SAVENAME_MAX SEED_MAX + 12 * save.modifiedChunksCount ≤ a
            ∧ a < headerSize SAVENAME_MAX SEED_MAX + 16 * save.modifiedChunksCount) →
          w1.mem a = w2.mem a ∧ w1.mem a < 256)
      ∧ (Finset.Ico (headerSize SAVENAME_MAX SEED_MAX + 12 * save.modifiedChunksCount)
          (headerSize SAVENAME_MAX SEED_MAX + 16 * save.modifiedChunksCount)).card
        = 4 * save.modifiedChunksCount
      ∧ headerSize SAVENAME_MAX SEED_MAX + 16 * save.modifiedChunksCount
        ≤ calc_save_size SAVENAME_MAX SEED_MAX save
      ∧ ((∀ a, headerSize SAVENAME_MAX SEED_MAX + 12 * save.modifiedChunksCount ≤ a →
            a < headerSize SAVENAME_MAX SEED_MAX + 16 * save.modifiedChunksCount →
            b1 a = b2 a) →
          ∀ a, a < calc_save_size SAVENAME_MAX SEED_MAX save → w1.mem a = w2.mem a) := by
  refine ⟨_, _, write_save_eq SAVENAME_MAX SEED_MAX save b1 bufSize hname hseed,
    write_save_eq SAVENAME_MAX SEED_MAX save b2 bufSize hname hseed, ?_⟩
  have hsize := calc_save_size_eq SAVENAME_MAX SEED_MAX save
  have app := fun b a => writtenMem_apply SAVENAME_MAX SEED_MAX save b (le_of_lt hname)
    (le_of_lt hseed) a
  have hwritten : ∀ a, a < calc_save_size SAVENAME_MAX SEED_MAX save →
      ¬ (headerSize SAVENAME_MAX SEED_MAX + 12 * save.modifiedChunksCount ≤ a
        ∧ a < headerSize SAVENAME_MAX SEED_MAX + 16 * save.modifiedChunksCount) →
      writtenMem SAVENAME_MAX SEED_MAX save b1 a = writtenMem SAVENAME_MAX SEED_MAX save b2 a
        ∧ writtenMem SAVENAME_MAX SEED_MAX save b1 a < 256 := by
    intro a ha hgap
    rw [app b1 a, app b2 a]
    by_cases h1 : headerSize SAVENAME_MAX SEED_MAX + 16 * save.modifiedChunksCount ≤ a
    · have hc : headerSize SAVENAME_MAX SEED_MAX + 16 * save.modifiedChunksCount ≤ a
          ∧ a < calc_save_size SAVENAME_MAX SEED_MAX save := ⟨h1, ha⟩
      simp only [hc, and_self, if_true, true_and]
      exact Nat.mod_lt _ (by decide)
    · have hc : ¬ (headerSize SAVENAME_MAX SEED_MAX + 16 * save.modifiedChunksCount ≤ a
          ∧ a < calc_save_size SAVENAME_MAX SEED_MAX save) := fun h => h1 h.1
      have h2 : a < headerSize SAVENAME_MAX SEED_MAX + 12 * save.modifiedChunksCount := by
        omega
      simp only [hc, h2, if_true, if_false, true_and]
      exact Nat.mod_lt _ (by decide)
  have hkept : ∀ (b : Mem) (a : Nat),
      headerSize SAVENAME_MAX SEED_MAX + 12 * save.modifiedChunksCount ≤ a →
      a < headerSize SAVENAME_MAX SEED_MAX + 16 * save.modifiedChunksCount →
      writtenMem SAVENAME_MAX SEED_MAX save b a = b a := by
    intro b a h1 h2
    rw [app b a, if_neg (by omega), if_neg (by omega)]
  refine ⟨?_, ?_, hkept b1, hwritten, ?_, ?_, ?_⟩
  · intro h
    simp [h]
  · intro a ha
    show writtenMem SAVENAME_MAX SEED_MAX save b1 a = b1 a
    rw [app b1 a, if_neg (by omega), if_neg (by omega)]
  · rw [Nat.card_Ico]
    omega
  · omega
  · intro hagree a ha
    show writtenMem SAVENAME_MAX SEED_MAX save b1 a = writtenMem SAVENAME_MAX SEED_MAX save b2 a
    by_cases hgap : headerSize SAVENAME_MAX SEED_MAX + 12 * save.modifiedChunksCount ≤ a
        ∧ a < headerSize SAVENAME_MAX SEED_MAX + 16 * save.modifiedChunksCount
    · rw [hkept b1 a hgap.1 hgap.2, hkept b2 a hgap.1 hgap.2]
      exact hagree a hgap.1 hgap.2
    · exact (hwritten a ha hgap).1

/-- C15 on the example, run on a buffer filled with `170` and on one filled with
`300`: the byte at offset 75 and the eight bytes from 63 to 70 keep their
content, the byte at offset 62 does not. -/
theorem write_save_frame_witness :
    strlen exampleSave.name < 4 ∧ strlen exampleSave.seed < 4
      ∧ calc_save_size 4 4 exampleSave = 75
      ∧ headerSize 4 4 + 12 * exampleSave.modifiedChunksCount = 63
      ∧ headerSize 4 4 + 16 * exampleSave.modifiedChunksCount = 71
      ∧ ∃ w1 w2, write_save 4 4 exampleSave (fun _ => 170) 75 = some w1
        ∧ write_save 4 4 exampleSave (fun _ => 300) 75 = some w2
        ∧ w1.mem 75 = 170 ∧ w1.mem 63 = 170 ∧ w1.mem 70 = 170 ∧ w1.mem 62 = w2.mem 62 := by
  refine ⟨by decide, by decide, by decide, by decide, by decide, ?_⟩
  obtain ⟨w1, w2, h1, h2, _, h4, h5, h6, _⟩ := write_save_frame 4 4 exampleSave (fun _ => 170)
    (fun _ => 300) 75 (by decide) (by decide)
  exact ⟨w1, w2, h1, h2, h4 75 (by decide), h5 63 (by decide) (by decide),
    h5 70 (by decide) (by decide), (h6 62 (by decide) (by decide)).1⟩

/-- C16: after `inventory_init` every slot's count is between 0 and 99, and
`inventory_add_block` keeps it so for every block type. Each call either leaves
both globals as they were, which happens when no slot has this type with a count
below 99 and no slot has count 0, or raises the count of one slot by exactly
one and leaves every other slot and the selection as they were. -/
theorem inventory_stack_cap (NUM_ITEM_SLOTS : Nat) (ids : BlockIds) :
    (5 ≤ NUM_ITEM_SLOTS →
        ∃ s, inventory_init NUM_ITEM_SLOTS ids = some s
          ∧ s.inventory.length = NUM_ITEM_SLOTS ∧ CountsInRange s.inventory)
      ∧ (∀ (s : InventoryState) (type : Int), CountsInRange s.inventory →
          CountsInRange (inventory_add_block s type).inventory)
      ∧ (∀ (s : InventoryState) (type : Int),
          (inventory_add_block s type = s
              ∧ (∀ t ∈ s.inventory, ¬ (t.type = type ∧ t.count < 99))
              ∧ (∀ t ∈ s.inventory, t.count ≠ 0))
            ∨ ((∃ pre t t' post, s.inventory = pre ++ t :: post
                  ∧ (inventory_add_block s type).inventory = pre ++ t' :: post
                  ∧ t'.count = t.count + 1)
                ∧ (inventory_add_block s type).inventorySelection = s.inventorySelection
                ∧ ((∃ t ∈ s.inventory, t.type = type ∧ t.count < 99)
                    ∨ ∃ t ∈ s.inventory, t.count = 0))) := by
  refine ⟨?_, ?_, ?_⟩
  · intro h5
    refine ⟨_, by rw [inventory_init, if_pos h5], by simp, ?_⟩
    intro t ht
    simp only at ht
    have hm := fun (l : List ItemSlot) (i : Nat) (a : ItemSlot) (h : t ∈ l.set i a) =>
      List.mem_or_eq_of_mem_set h
    rcases hm _ _ _ ht with h | h
    · rcases hm _ _ _ h with h | h
      · rcases hm _ _ _ h with h | h
        · rcases hm _ _ _ h with h | h
          · rcases hm _ _ _ h with h | h
            · rw [List.eq_of_mem_replicate h]; decide
            · rw [h]; exact ⟨by simp, by simp⟩
          · rw [h]; exact ⟨by simp, by simp⟩
        · rw [h]; exact ⟨by simp, by simp⟩
      · rw [h]; exact ⟨by simp, by simp⟩
    · rw [h]; exact ⟨by simp, by simp⟩
  · intro s type hr
    rcases inventory_add_block_cases s type with h | ⟨pre, t, t', post, e1, e2, e3, e4, _⟩
    · rw [h.1]; exact hr
    · rw [e2]
      rw [e1] at hr
      have ht := hr t (List.mem_append_right _ (List.mem_cons_self _ _))
      exact countsInRange_replace pre post t t' hr ⟨by omega, by omega⟩
  · intro s type
    rcases inventory_add_block_cases s type with h | ⟨pre, t, t', post, e1, e2, e3, _, e5⟩
    · exact Or.inl h
    · right
      have hmem : t ∈ s.inventory := by
        rw [e1]; exact List.mem_append_right _ (List.mem_cons_self _ _)
      refine ⟨⟨pre, t, t', post, e1, e2, e3⟩, ?_, ?_⟩
      · unfold inventory_add_block
        cases add_to_existing type s.inventory with
        | some inv => rfl
        | none =>
          cases add_to_empty type s.inventory with
          | some inv => rfl
          | none => rfl
      · rcases e5 with h | h
        · exact Or.inl ⟨t, hmem, h⟩
        · exact Or.inr ⟨t, hmem, h⟩

/-- C16 on eight slots, and on an inventory whose first stack of type 3 is full:
the second stack goes from 98 to 99, and one more block of type 3 goes to the
empty slot. -/
theorem inventory_stack_cap_witness :
    (5 : Nat) ≤ 8 ∧ CountsInRange exampleInventory.inventory
      ∧ (∃ s, inventory_init 8 exampleIds = some s ∧ CountsInRange s.inventory)
      ∧ CountsInRange (inventory_add_block exampleInventory 3).inventory
      ∧ (inventory_add_block exampleInventory 3).inventory
        = [{ type := 3, count := 99 }, { type := 3, count := 99 }, { type := 0, count := 0 }]
      ∧ (inventory_add_block (inventory_add_block exampleInventory 3) 3).inventory
        = [{ type := 3, count := 99 }, { type := 3, count := 99 }, { type := 3, count := 1 }] := by
  refine ⟨by decide, by decide, ?_, ?_, by decide, by decide⟩
  · obtain ⟨s, h1, _, h3⟩ := (inventory_stack_cap 8 exampleIds).1 (by decide)
    exact ⟨s, h1, h3⟩
  · exact (inventory_stack_cap 8 exampleIds).2.1 exampleInventory 3 (by decide)

end Cubecraft
